import Mathlib

/-!
Verification development for the ctrl-ai transparent LLM proxy.

This file gives a shallow embedding, in Lean 4, of the parts of the Go
source that the verified properties are about:

* the URL router (`internal/proxy/router.go`),
* the response modifier for the three wire formats
  (`internal/proxy/response_modifier.go`),
* the SSE stream rewriters (`sse_modifier` / `openai_responses_stream.go`),
* the SSE stream parser (`sse_reader`),
* the hash-chained audit log (`internal/audit`),
* the guardrail rule engine (`internal/engine`).

Modelling conventions, used consistently below:

* Go maps deserialized from JSON are modelled by structures carrying the
  fields that the Go code actually reads or writes; unread payload fields
  that a claim needs (for example tool_use ids carried through a stream)
  are kept as plain data, the rest is dropped.  JSON (de)serialization
  itself (`encoding/json`) is external library code and is not modelled:
  functions are embedded at the level of the values after parsing.
* External pure library functions (SHA-256 plus hex rendering, regexp
  matching, glob matching, YAML parsing) are taken as explicit function
  parameters of the embedding; everything the repository itself computes
  is embedded concretely.
* Go `int` indices are modelled as `Int` (they can be negative, and the
  stream rewriter uses `-1` as a sentinel), Go `uint64` sequence numbers
  as `Nat` (the append path only ever increments from 0, so the wrap at
  `2 ^ 64` is unreachable in the modelled executions).
-/

namespace CtrlAI

/-! ### String primitives

The Go standard-library string functions the embedded code calls
(`strings.HasPrefix`, `TrimPrefix`, `Split`, `Join`, `TrimSpace`,
`ToLower`, `Contains`, `EqualFold`) are modelled structurally over the
character list of a string, so that every embedded function evaluates by
kernel reduction on concrete inputs. -/

/-- hasPrefixStr models `strings.HasPrefix`. -/
def hasPrefixStr (s pre : String) : Bool :=
  pre.toList.isPrefixOf s.toList

/-- dropStr drops the first n characters of a string. -/
def dropStr (s : String) (n : Nat) : String :=
  String.mk (s.toList.drop n)

/-- trimStr models `strings.TrimSpace`: strip leading and trailing
whitespace. -/
def trimStr (s : String) : String :=
  String.mk
    (((s.toList.dropWhile Char.isWhitespace).reverse.dropWhile
        Char.isWhitespace).reverse)

/-- splitChar models `strings.Split` with a one-character separator (the
only form the router uses): splitting the empty string yields one empty
field. -/
def splitChar (sep : Char) : List Char → List (List Char)
  | [] => [[]]
  | c :: rest =>
    if c = sep then [] :: splitChar sep rest
    else
      match splitChar sep rest with
      | w :: ws => (c :: w) :: ws
      | [] => [[c]]

/-- joinWith models `strings.Join`. -/
def joinWith (sep : String) : List String → String
  | [] => ""
  | [x] => x
  | x :: xs => x ++ sep ++ joinWith sep xs

/-- lowerStr models `strings.ToLower` on the ASCII data the engine
compares. -/
def lowerStr (s : String) : String :=
  String.mk (s.toList.map Char.toLower)

/-- listContains is the contiguous-sublist test behind
`strings.Contains`. -/
def listContains (needle : List Char) : List Char → Bool
  | [] => needle.isEmpty
  | c :: rest => needle.isPrefixOf (c :: rest) || listContains needle rest

/-! ### Router (`internal/proxy/router.go` and the extractor API type)

The constant block declaring the `APIType` enum lives in the extractor
package; the file with the current declaration is not among the provided
sources (only an older three-constant version and the users of the
constants are).  Modelled from the spec: `wireFormat` ranges over
AnthropicMessage, OpenAIChat, OpenAIResponses and Unknown, four distinct
values, matching the four constants `APITypeAnthropic`, `APITypeOpenAI`,
`APITypeOpenAIResponses`, `APITypeUnknown` used throughout the source. -/

inductive APIType where
  | anthropic
  | openAI
  | openAIResponses
  | unknown
deriving DecidableEq

/-- RouteInfo mirrors `proxy.RouteInfo`: provider key, agent id, API path
and detected API type. -/
structure RouteInfo where
  providerKey : String
  agentID : String
  apiPath : String
  apiType : APIType
deriving DecidableEq

/-- Go `strings.TrimPrefix(s, pre)`: drop `pre` when `s` starts with it,
otherwise return `s` unchanged. -/
def goTrimLeft (s pre : String) : String :=
  if hasPrefixStr s pre then dropStr s pre.length else s

/-- detectAPIType embeds `proxy.detectAPIType`: the wire format is chosen
by prefix of the API path — `/v1/messages` gives Anthropic,
`/v1/chat/completions` gives OpenAI, and `/v1/responses` also gives
OpenAI (the plain `APITypeOpenAI` constant, not `APITypeOpenAIResponses`). -/
def detectAPIType (apiPath : String) : APIType :=
  if hasPrefixStr apiPath "/v1/messages" then .anthropic
  else if hasPrefixStr apiPath "/v1/chat/completions" then .openAI
  else if hasPrefixStr apiPath "/v1/responses" then .openAI
  else .unknown

/-- ParseRoute embeds `proxy.ParseRoute`: strip the leading slash, split on
`/`, require the `provider` head segment, read the optional
`agent/{id}` pair, and join the rest back into the API path. -/
def ParseRoute (path : String) : Except String RouteInfo :=
  let parts := (splitChar '/' (goTrimLeft path "/").toList).map String.mk
  if parts.length < 2 ∨ parts.head? ≠ some "provider" then
    .error "invalid path: must start with /provider/"
  else
    let providerKey := (parts.drop 1).headD ""
    let remaining := parts.drop 2
    let (agentID, remaining) :=
      if remaining.length ≥ 2 ∧ remaining.head? = some "agent" then
        ((remaining.drop 1).headD "", remaining.drop 2)
      else
        ("default", remaining)
    let apiPath :=
      if remaining.length > 0 then "/" ++ joinWith "/" remaining
      else ""
    .ok ⟨providerKey, agentID, apiPath, detectAPIType apiPath⟩

/-! ### Audit log (`internal/audit`)

`computeHash` feeds `"<prevHash>|<seq>|<timestamp>|<agent>|<tool>|<decision>"`
to SHA-256 and renders the digest as `"sha256:" ++ hex`.  SHA-256 together
with the hex rendering is Go standard-library code (`crypto/sha256`,
`encoding/hex`), taken here as an explicit function parameter `sha` from
input strings to rendered hex digests; everything the audit package itself
does with it is embedded concretely. -/

/-- Entry mirrors `audit.Entry`, restricted to the fields the hash chain
and verification read: seq, timestamp, agent, tool, decision, prevHash and
hash (provider, model, kind, arguments, rule, message and latency are
payload that `computeHash` and `VerifyChain` never touch). -/
structure Entry where
  seq : Nat
  timestamp : String
  agent : String
  tool : String
  decision : String
  prevHash : String
  hash : String
deriving DecidableEq

/-- hashInput is the exact format string of `audit.computeHash`:
`"%s|%d|%s|%s|%s|%s"` applied to prevHash, seq, timestamp, agent, tool
and decision. -/
def hashInput (e : Entry) : String :=
  e.prevHash ++ "|" ++ toString e.seq ++ "|" ++ e.timestamp ++ "|" ++
    e.agent ++ "|" ++ e.tool ++ "|" ++ e.decision

/-- computeHash embeds `audit.computeHash`: hash the formatted input and
prefix the rendered digest with `"sha256:"`. -/
def computeHash (sha : String → String) (e : Entry) : String :=
  "sha256:" ++ sha (hashInput e)

/-- verifyEntry embeds `audit.verifyEntry`: the stored hash matches the
recomputed one. -/
def verifyEntry (sha : String → String) (e : Entry) : Bool :=
  e.hash == computeHash sha e

/-- createGenesis embeds `audit.createGenesis`: the genesis entry has
seq 0, prevHash `"sha256:genesis"`, the given timestamp, and its hash is
computed over those fields (its agent, tool and decision fields are
`""`, `"genesis"` and `"info"` in the source; tool and decision enter the
hash input). -/
def createGenesis (sha : String → String) (ts : String) : Entry :=
  let g : Entry :=
    { seq := 0, timestamp := ts, agent := "", tool := "genesis",
      decision := "info", prevHash := "sha256:genesis", hash := "" }
  { g with hash := computeHash sha g }

/-- LogState is the in-memory append state of `audit.AuditLog`: the next
sequence base, the hash of the last entry, and the entries written to the
daily files so far (the genesis entry is persisted separately in
`genesis.json` and is not part of the daily files). -/
structure LogState where
  seq : Nat
  lastHash : String
  daily : List Entry
deriving DecidableEq

/-- initialState is the state right after `audit.New` on a fresh
directory: `createGenesis` leaves `a.seq = 0` and
`a.lastHash = genesis.Hash`, and no daily file exists yet. -/
def initialState (sha : String → String) (ts : String) : LogState :=
  { seq := 0, lastHash := (createGenesis sha ts).hash, daily := [] }

/-- AppendReq carries the caller-supplied fields of one append: the
timestamp (`time.Now` is external input) and the agent, tool and decision
strings. -/
structure AppendReq where
  timestamp : String
  agent : String
  tool : String
  decision : String
deriving DecidableEq

/-- appendEntry embeds `audit.append`: advance seq, stamp the entry, link
prevHash to lastHash, compute the hash, write the line, and adopt the new
hash as lastHash. -/
def appendEntry (sha : String → String) (st : LogState) (r : AppendReq) :
    LogState :=
  let e : Entry :=
    { seq := st.seq + 1, timestamp := r.timestamp, agent := r.agent,
      tool := r.tool, decision := r.decision, prevHash := st.lastHash,
      hash := "" }
  let e := { e with hash := computeHash sha e }
  { seq := e.seq, lastHash := e.hash, daily := st.daily ++ [e] }

/-- applyAppends folds a sequence of appends over a log state. -/
def applyAppends (sha : String → String) (st : LogState)
    (rs : List AppendReq) : LogState :=
  rs.foldl (appendEntry sha) st

/-- VerifyResult mirrors `audit.VerifyResult` (valid flag, number of
entries checked, index where the chain broke, and the expected/actual
hash pair; in a valid result the last three keep their zero values). -/
structure VerifyResult where
  valid : Bool
  entriesChecked : Nat
  brokenAt : Nat
  expectedHash : String
  actualHash : String
deriving DecidableEq

/-- verifyLoop is the loop body of `audit.VerifyChain`: at index i, first
compare the stored hash with the recomputed one, then (for i > 0) compare
prevHash with the predecessor's hash; stop at the first failure. -/
def verifyLoop (sha : String → String) (prev : Option Entry) (i : Nat) :
    List Entry → VerifyResult
  | [] => { valid := true, entriesChecked := i, brokenAt := 0,
            expectedHash := "", actualHash := "" }
  | e :: rest =>
    let expected := computeHash sha e
    if e.hash ≠ expected then
      { valid := false, entriesChecked := i + 1, brokenAt := i,
        expectedHash := expected, actualHash := e.hash }
    else
      match prev with
      | some p =>
        if e.prevHash ≠ p.hash then
          { valid := false, entriesChecked := i + 1, brokenAt := i,
            expectedHash := p.hash, actualHash := e.prevHash }
        else
          verifyLoop sha (some e) (i + 1) rest
      | none => verifyLoop sha (some e) (i + 1) rest

/-- AuditDir models the on-disk audit directory as `VerifyChain` sees it:
the separately persisted genesis entry (absent on a never-initialized
directory) and the concatenated entries of the daily `*.jsonl` files in
lexicographic file order, which is what `readAllEntries` returns
(`genesis.json` does not match the `*.jsonl` glob). -/
structure AuditDir where
  genesis : Option Entry
  daily : List Entry
deriving DecidableEq

/-- VerifyChain embeds `audit.VerifyChain`: read all daily entries and run
the verification loop; an empty log verifies as valid. -/
def VerifyChain (sha : String → String) (d : AuditDir) : VerifyResult :=
  verifyLoop sha none 0 d.daily

/-- linkOK is the per-index pass condition of the verification loop, used
to state which index the loop rejects at: the stored hash matches, and for
a non-first entry the prevHash matches the predecessor's hash. -/
def linkOK (sha : String → String) (prev : Option Entry) (e : Entry) :
    Bool :=
  e.hash == computeHash sha e &&
    (match prev with
     | some p => e.prevHash == p.hash
     | none => true)

/-- firstBad? pairs each entry with its predecessor and returns the index
of the first entry failing `linkOK`, the specification-side notion of
"the first index i where computeHash(e_i) differs from e_i.hash or (for
i > 0) e_i.prevHash differs from e_(i-1).hash". -/
def firstBad? (sha : String → String) (es : List Entry) : Option Nat :=
  (es.zip ((none : Option Entry) :: es.map some)).findIdx?
    (fun p => ¬ linkOK sha p.2 p.1)

/-! ### Rule engine (`internal/engine`)

Regexp and glob compilation and matching (`regexp`, `gobwas/glob`) and the
JSON re-serialization fallback of `arg_contains` are external libraries,
passed in as `ExternalMatchers`.  A rule's `compiled` cache is, per the
engine's invariant, always consistent with its declared patterns (it is
set by `compileMatcher` before a rule enters any set and never mutated),
so rules are modelled by their patterns and the cache is not duplicated:
`compiled.commandRegex` is nil exactly when the pattern string is empty,
and `compiled.pathGlobs` is nonempty exactly when `Match.Path` is. -/

/-- ArgVal models one JSON value in a tool call's parsed argument map, as
`getStringArg` distinguishes them: a string, or anything else. -/
inductive ArgVal where
  | str (s : String)
  | other
deriving DecidableEq

/-- ExternalMatchers bundles the external library functions the engine
calls: pattern compilability tests (`regexp.Compile`, `glob.Compile`
succeed), compiled-pattern matching (`MatchString`, `glob.Match`), and
`json.Marshal` of an argument map (used as the `arg_contains` fallback
when the raw argument bytes are absent). -/
structure ExternalMatchers where
  regexCompiles : String → Bool
  globCompiles : String → Bool
  regexMatches : String → String → Bool
  globMatches : String → String → Bool
  marshalArgs : Option (List (String × ArgVal)) → String

/-- ToolCallE carries the fields of `extractor.ToolCall` that rule
evaluation reads: the tool name, the parsed arguments (nil when parsing
failed), and the raw argument JSON. -/
structure ToolCallE where
  name : String
  arguments : Option (List (String × ArgVal))
  rawJSON : String
deriving DecidableEq

/-- RuleMatch mirrors `engine.RuleMatch` after YAML decoding: the
string-or-list fields are lists, the rest are strings; unset fields are
empty. -/
structure RuleMatch where
  tool : List String := []
  action : List String := []
  agent : String := ""
  path : List String := []
  argContains : List String := []
  commandRegex : String := ""
  urlRegex : String := ""
deriving DecidableEq

/-- Rule mirrors `engine.Rule` (the `compiled` cache is represented by the
patterns themselves, see the section comment). -/
structure Rule where
  name : String
  Match : RuleMatch := {}
  action : String := ""
  message : String := ""
  builtin : Bool := false
deriving DecidableEq

/-- Decision mirrors `engine.Decision`. -/
structure Decision where
  action : String
  rule : String := ""
  message : String := ""
deriving DecidableEq

/-- equalFold models `strings.EqualFold` on the ASCII tool and action
names the engine compares (case-insensitive equality via lowering). -/
def equalFold (a b : String) : Bool :=
  lowerStr a == lowerStr b

/-- strContains models `strings.Contains`: the needle occurs as a
contiguous substring of the haystack. -/
def strContains (hay needle : String) : Bool :=
  listContains needle.toList hay.toList

/-- getStringArg embeds `engine.getStringArg`: empty string when the map
is nil, the key is absent, or the value is not a string. -/
def getStringArg (args : Option (List (String × ArgVal))) (key : String) :
    String :=
  match args with
  | none => ""
  | some l =>
    match l.lookup key with
    | some (.str s) => s
    | _ => ""

/-- matchesRule embeds `engine.matchesRule`: every set field of the match
spec must be satisfied (conjunction across fields), any entry of a list
field may satisfy it (disjunction within a field). -/
def matchesRule (M : ExternalMatchers) (r : Rule) (agentID : String)
    (tc : ToolCallE) : Bool :=
  let m := r.Match
  let toolOK := m.tool.isEmpty || m.tool.any (fun t => equalFold t tc.name)
  let agentOK := m.agent == "" || m.agent == agentID
  let actionOK :=
    m.action.isEmpty ||
      (let av := getStringArg tc.arguments "action"
       av ≠ "" && m.action.any (fun a => equalFold a av))
  let pathOK :=
    m.path.isEmpty ||
      (let pv := getStringArg tc.arguments "path"
       pv ≠ "" && m.path.any (fun p => M.globMatches p pv))
  let argOK :=
    m.argContains.isEmpty ||
      (let raw :=
         if tc.rawJSON == "" then M.marshalArgs tc.arguments else tc.rawJSON
       m.argContains.any (fun s => strContains (lowerStr raw) (lowerStr s)))
  let cmdOK :=
    m.commandRegex == "" ||
      (let cv := getStringArg tc.arguments "command"
       cv ≠ "" && M.regexMatches m.commandRegex cv)
  let urlOK :=
    m.urlRegex == "" ||
      (let uv :=
         let u := getStringArg tc.arguments "url"
         if u == "" then getStringArg tc.arguments "targetUrl" else u
       uv ≠ "" && M.regexMatches m.urlRegex uv)
  toolOK && agentOK && actionOK && pathOK && argOK && cmdOK && urlOK

/-- compileRuleOk embeds the success condition of `engine.compileMatcher`:
every declared command regex, url regex and path glob compiles. -/
def compileRuleOk (M : ExternalMatchers) (r : Rule) : Bool :=
  (r.Match.commandRegex == "" || M.regexCompiles r.Match.commandRegex) &&
  (r.Match.urlRegex == "" || M.regexCompiles r.Match.urlRegex) &&
  r.Match.path.all M.globCompiles

/-- builtinRules embeds `engine.builtinRules`: the fixed catalogue, in
source order. -/
def builtinRules : List Rule :=
  [ { name := "block_ssh_private_keys",
      Match := { tool := ["exec", "read"], argContains := [".ssh/id_"] },
      action := "block", message := "Cannot access SSH private keys",
      builtin := true },
    { name := "block_env_files",
      Match := { tool := ["read", "write", "edit"], path := ["**/.env"] },
      action := "block", message := "Cannot access .env files",
      builtin := true },
    { name := "block_credential_files",
      Match := { tool := ["read", "write", "edit"],
                 argContains := [".aws/credentials"] },
      action := "block", message := "Cannot access credential files",
      builtin := true },
    { name := "block_shell_config_write",
      Match := { tool := ["write", "edit"], argContains := [".bashrc"] },
      action := "block",
      message := "Cannot modify shell configuration files",
      builtin := true },
    { name := "block_shell_config_write_zsh",
      Match := { tool := ["write", "edit"], argContains := [".zshrc"] },
      action := "block",
      message := "Cannot modify shell configuration files",
      builtin := true },
    { name := "block_shell_config_write_profile",
      Match := { tool := ["write", "edit"], argContains := [".profile"] },
      action := "block",
      message := "Cannot modify shell configuration files",
      builtin := true },
    { name := "block_browser_passwords",
      Match := { tool := ["read", "exec"], argContains := ["Login Data"] },
      action := "block",
      message := "Cannot access browser password databases",
      builtin := true },
    { name := "block_private_key_content",
      Match := { tool := ["write", "exec"],
                 argContains := ["PRIVATE KEY-----"] },
      action := "block",
      message := "Cannot write or transmit private key content",
      builtin := true },
    { name := "block_system_files",
      Match := { tool := ["read", "write", "edit"],
                 argContains := ["/etc/shadow"] },
      action := "block", message := "Cannot access system credential files",
      builtin := true },
    { name := "block_self_modification",
      Match := { tool := ["write", "edit"], argContains := [".ctrlai/"] },
      action := "block",
      message := "Cannot modify CtrlAI configuration directory",
      builtin := true },
    { name := "block_destructive_commands",
      Match := { tool := ["exec"],
                 commandRegex :=
                   "rm\\s+-rf\\s+/|mkfs|dd\\s+if=|:\\(\\)\\\x7b\\s*:\\|:&\\s*\\\x7d;:" },
      action := "block", message := "Destructive command blocked",
      builtin := true },
    { name := "block_exfiltration",
      Match := { tool := ["exec"],
                 commandRegex :=
                   "(curl|wget|nc|ncat).*\\.(env|pem|key|credentials)" },
      action := "block",
      message := "Credential exfiltration attempt blocked",
      builtin := true },
    { name := "block_camera",
      Match := { tool := ["nodes"],
                 action := ["camera_snap", "camera_clip", "camera_list"] },
      action := "block", message := "Camera access blocked",
      builtin := true },
    { name := "block_screen_record",
      Match := { tool := ["nodes"], action := ["screen_record"] },
      action := "block", message := "Screen recording blocked",
      builtin := true },
    { name := "block_location",
      Match := { tool := ["nodes"], action := ["location_get"] },
      action := "block", message := "Location tracking blocked",
      builtin := true },
    { name := "block_node_rce",
      Match := { tool := ["nodes"], action := ["run", "invoke"] },
      action := "block",
      message := "Remote code execution on paired device blocked",
      builtin := true },
    { name := "block_unsolicited_messages",
      Match := { tool := ["message"] },
      action := "block", message := "Message tool usage blocked",
      builtin := true },
    { name := "block_message_send",
      Match := { tool := ["message"],
                 action := ["send", "sendWithEffect", "sendAttachment",
                            "reply", "thread-reply", "broadcast"] },
      action := "block", message := "Message sending blocked",
      builtin := true },
    { name := "block_message_admin",
      Match := { tool := ["message"],
                 action := ["kick", "ban", "timeout", "role-add",
                            "role-remove"] },
      action := "block", message := "Messaging admin action blocked",
      builtin := true },
    { name := "block_sessions_spawn",
      Match := { tool := ["sessions_spawn"] },
      action := "block", message := "Agent spawning blocked",
      builtin := true },
    { name := "block_sessions_send",
      Match := { tool := ["sessions_send"] },
      action := "block", message := "Cross-session messaging blocked",
      builtin := true },
    { name := "block_memory_search",
      Match := { tool := ["memory_search"] },
      action := "block", message := "Memory search blocked",
      builtin := true },
    { name := "block_memory_get",
      Match := { tool := ["memory_get"] },
      action := "block", message := "Memory access blocked",
      builtin := true },
    { name := "block_cron_create",
      Match := { tool := ["cron"], action := ["add"] },
      action := "block", message := "Cron job creation blocked",
      builtin := true },
    { name := "block_gateway_modify",
      Match := { tool := ["gateway"],
                 action := ["config.apply", "config.patch"] },
      action := "block",
      message := "Gateway configuration modification blocked",
      builtin := true },
    { name := "block_gateway_restart",
      Match := { tool := ["gateway"], action := ["restart"] },
      action := "block", message := "Gateway restart blocked",
      builtin := true } ]

/-- defaultBuiltinToggles embeds `engine.defaultBuiltinToggles`. -/
def defaultBuiltinToggles : List (String × Bool) :=
  [ ("block_ssh_private_keys", true),
    ("block_env_files", true),
    ("block_credential_files", true),
    ("block_shell_config_write", true),
    ("block_shell_config_write_zsh", true),
    ("block_shell_config_write_profile", true),
    ("block_browser_passwords", true),
    ("block_private_key_content", true),
    ("block_system_files", true),
    ("block_self_modification", true),
    ("block_destructive_commands", true),
    ("block_exfiltration", true),
    ("block_camera", true),
    ("block_screen_record", true),
    ("block_location", true),
    ("block_node_rce", true),
    ("block_unsolicited_messages", false),
    ("block_message_send", false),
    ("block_message_admin", true),
    ("block_sessions_spawn", false),
    ("block_sessions_send", false),
    ("block_memory_search", false),
    ("block_memory_get", false),
    ("block_cron_create", false),
    ("block_gateway_modify", true),
    ("block_gateway_restart", true) ]

/-- EngineState is the mutable state of `engine.Engine`: the custom rules
and the builtin toggle map.  The combined `rules` slice is a cache that
`rebuild` refreshes after every mutation; it is modelled as the derived
value `activeRules`. -/
structure EngineState where
  customRules : List Rule
  builtinToggles : List (String × Bool)
deriving DecidableEq

/-- compileRule is `compileMatcher` as a partial identity: the rule itself
when all its patterns compile, nothing otherwise. -/
def compileRule (M : ExternalMatchers) (r : Rule) : Option Rule :=
  if compileRuleOk M r then some r else none

/-- rebuildRules embeds `engine.rebuild`: enabled built-ins in catalogue
order (a toggle absent from the map defaults to enabled; a built-in whose
patterns fail to compile is skipped), then the custom rules in declared
order. -/
def rebuildRules (M : ExternalMatchers) (toggles : List (String × Bool))
    (custom : List Rule) : List Rule :=
  (builtinRules.filterMap (fun r =>
    if (toggles.lookup r.name).getD true then compileRule M r else none)) ++
    custom

/-- activeRules is the engine's combined rule slice after `rebuild`. -/
def activeRules (M : ExternalMatchers) (e : EngineState) : List Rule :=
  rebuildRules M e.builtinToggles e.customRules

/-- evalRules is the loop of `engine.Evaluate`: first matching rule wins;
no match falls through to the default allow decision. -/
def evalRules (M : ExternalMatchers) (agentID : String) (tc : ToolCallE) :
    List Rule → Decision
  | [] => { action := "allow", rule := "", message := "" }
  | r :: rest =>
    if matchesRule M r agentID tc then
      { action := r.action, rule := r.name, message := r.message }
    else
      evalRules M agentID tc rest

/-- Evaluate embeds `engine.Evaluate` over the active ruleset. -/
def Evaluate (M : ExternalMatchers) (e : EngineState) (agentID : String)
    (tc : ToolCallE) : Decision :=
  evalRules M agentID tc (activeRules M e)

/-- AddRule embeds `engine.AddRule` after the external YAML decode:
reject an empty name, default the action to block, reject patterns that
fail to compile, then append to the custom rules (the combined slice is
rebuilt, which `activeRules` reflects). -/
def AddRule (M : ExternalMatchers) (e : EngineState) (r : Rule) :
    Except String EngineState :=
  if r.name = "" then
    .error "rule must have a name"
  else
    let r := if r.action = "" then { r with action := "block" } else r
    match compileRule M r with
    | none => .error "invalid pattern"
    | some r =>
      .ok { e with customRules := e.customRules ++ [r] }

/-- RemoveRule embeds `engine.RemoveRule`: drop every custom rule bearing
the name; error when none did. -/
def RemoveRule (e : EngineState) (nm : String) : Except String EngineState :=
  if e.customRules.any (fun r => r.name == nm) then
    .ok { e with customRules := e.customRules.filter (fun r => r.name ≠ nm) }
  else
    .error "custom rule not found"

/-- mergeToggles embeds the toggle merge of `engine.loadUnlocked`: a nil
file map becomes the defaults; otherwise defaults fill in only the keys
the file does not set. -/
def mergeToggles (fileToggles : Option (List (String × Bool))) :
    List (String × Bool) :=
  match fileToggles with
  | none => defaultBuiltinToggles
  | some ts =>
    ts ++ defaultBuiltinToggles.filter (fun p => (ts.lookup p.1).isNone)

/-- loadEngine embeds `engine.loadUnlocked` after the external YAML decode
of the rules file: compile every custom rule (failing the load if any
pattern fails), merge the toggles, rebuild.  Note that no validation of
rule names happens on this path — `loadRulesFromFile` accepts a custom
rule whose name is the empty string. -/
def loadEngine (M : ExternalMatchers) (fileRules : List Rule)
    (fileToggles : Option (List (String × Bool))) :
    Except String EngineState :=
  if fileRules.all (compileRuleOk M) then
    .ok { customRules := fileRules, builtinToggles := mergeToggles fileToggles }
  else
    .error "invalid pattern"

/-! ### Response modifier, single-body path
(`internal/proxy/response_modifier.go`)

The Go functions decode the body into nested `map[string]json.RawMessage`
values, mutate them and re-encode.  They are embedded over structures
carrying the fields the functions read or write; unknown fields that pass
through untouched, and the text payloads of injected notice blocks, are
outside every claim and are dropped. -/

/-- ToolCallM carries the fields of an `extractor.ToolCall` that the
rewrite paths read: the invocation id, its tool name (used only in notice
text), and its per-item index. -/
structure ToolCallM where
  id : String
  name : String := ""
  index : Int := 0
deriving DecidableEq

/-- formatBlockNotice embeds `proxy.formatBlockNotice`. -/
def formatBlockNotice (toolName ruleName message : String) : String :=
  let message :=
    if message = "" then
      "Tool call \x27" ++ toolName ++ "\x27 was blocked"
    else message
  if ruleName ≠ "" then
    "[CtrlAI] Blocked: " ++ message ++ " (rule: " ++ ruleName ++ ")"
  else
    "[CtrlAI] Blocked: " ++ message

/-- ABlock is one entry of an Anthropic `content` array as the modifier
reads it: its `type` and, for tool_use blocks, its `id`. -/
structure ABlock where
  btype : String
  id : String := ""
deriving DecidableEq

/-- AnthropicBody is an Anthropic Messages response body: the content
array and the stop_reason. -/
structure AnthropicBody where
  content : List ABlock
  stopReason : String
deriving DecidableEq

/-- modifyAnthropicResponse embeds `proxy.modifyAnthropicResponse`: strip
blocked tool_use blocks, remember whether any allowed tool_use survived,
append one text block per decision, and set stop_reason to end_turn when
no allowed tool_use remained. -/
def modifyAnthropicResponse (body : AnthropicBody) (blocked : List ToolCallM)
    (decisions : List Decision) : AnthropicBody :=
  let blockedIDs := blocked.map (·.id)
  let filtered := body.content.filter
    (fun b => !(b.btype == "tool_use" && b.id ∈ blockedIDs))
  let hasAllowedToolUse := body.content.any
    (fun b => b.btype == "tool_use" && !(b.id ∈ blockedIDs))
  let filtered := filtered ++ decisions.map (fun _ => { btype := "text" })
  { content := filtered,
    stopReason := if hasAllowedToolUse then body.stopReason else "end_turn" }

/-- OAITool is one entry of an OpenAI chat `message.tool_calls` array, as
the modifier reads it. -/
structure OAITool where
  id : String
deriving DecidableEq

/-- OAIMessage is an OpenAI chat `choices[0].message`: the optional
tool_calls array and the content text. -/
structure OAIMessage where
  toolCalls : Option (List OAITool) := none
  content : String := ""
deriving DecidableEq

/-- OAIChoiceB is one entry of an OpenAI chat `choices` array in a
single-body response. -/
structure OAIChoiceB where
  message : Option OAIMessage
  finishReason : String
deriving DecidableEq

/-- OpenAIBody is an OpenAI Chat Completions response body. -/
structure OpenAIBody where
  choices : List OAIChoiceB
deriving DecidableEq

/-- modifyOpenAIResponse embeds `proxy.modifyOpenAIResponse`: filter
blocked entries out of choice 0's tool_calls, append the notices to the
message content, and set finish_reason to stop when no allowed call
remained; a body without choices or without a message is returned
unchanged. -/
def modifyOpenAIResponse (body : OpenAIBody) (blocked : List ToolCallM)
    (decisions : List Decision) : OpenAIBody :=
  match body.choices with
  | [] => body
  | choice :: rest =>
    match choice.message with
    | none => body
    | some msg =>
      let blockedIDs := blocked.map (·.id)
      let (msg, hasAllowedToolCalls) :=
        match msg.toolCalls with
        | some tcs =>
          let kept := tcs.filter (fun t : OAITool => !(t.id ∈ blockedIDs))
          ({ msg with toolCalls := some kept }, !kept.isEmpty)
        | none => (msg, false)
      let content := (decisions.zip blocked).foldl
        (fun acc (p : Decision × ToolCallM) =>
          let notice := formatBlockNotice p.2.name p.1.rule p.1.message
          if acc ≠ "" then acc ++ "\n\n" ++ notice else notice)
        msg.content
      let choice :=
        { choice with
          message := some { msg with content := content },
          finishReason :=
            if hasAllowedToolCalls then choice.finishReason else "stop" }
      { choices := choice :: rest }

/-- RespItem is one entry of an OpenAI Responses `output` array as the
modifier reads it: its `type`, its `call_id` and its `id` (the latter is
the fallback key when call_id is empty). -/
structure RespItem where
  itemType : String
  callID : String := ""
  id : String := ""
deriving DecidableEq

/-- ResponsesBody is an OpenAI Responses API response body. -/
structure ResponsesBody where
  output : List RespItem
  status : String
deriving DecidableEq

/-- modifyOpenAIResponsesResponse embeds
`proxy.modifyOpenAIResponsesResponse`: filter blocked function_call items
out of the output array, append a message item carrying the notice, and
set the status to completed unconditionally. -/
def modifyOpenAIResponsesResponse (body : ResponsesBody)
    (blocked : List ToolCallM) (_decisions : List Decision) : ResponsesBody :=
  let blockedCallIDs := blocked.map (·.id)
  let filtered := body.output.filter (fun it =>
    !(it.itemType == "function_call" &&
      (let cid := if it.callID == "" then it.id else it.callID
       cid ∈ blockedCallIDs)))
  let filtered := filtered ++ [{ itemType := "message" }]
  { output := filtered, status := "completed" }

/-! ### Stream rewriters (`sse_modifier`, Anthropic and OpenAI chat)

The rewriters walk `[]SSEEvent` lists, decoding each event's JSON payload
just far enough to read a type, an index or a finish reason and to write
an index or a stop reason back.  Events are modelled by constructors
carrying exactly those read/written fields; payloads the rewriter passes
through untouched (tool_use ids, text deltas) appear only where a claim
needs them.  Go `int` indices are `Int`: the skip-tracking sentinel is
`-1`. -/

/-- AnthEvent is one Anthropic SSE event as `buildModifiedAnthropicStream`
distinguishes them.  An event whose payload does not decode, or of an
event type the rewriter does not know, is `passthrough`. -/
inductive AnthEvent where
  | messageStart
  | blockStart (index : Int) (btype : String) (id : String)
  | blockDelta (index : Int)
  | blockStop (index : Int)
  | messageDelta (stopReason : String)
  | messageStop
  | passthrough
deriving DecidableEq

/-- keptStart returns the index of a content_block_start event that the
rewriter keeps (not a blocked tool_use), nothing otherwise. -/
def keptStart (blockedIdx : List Int) (e : AnthEvent) : Option Int :=
  match e with
  | .blockStart i t _ =>
    if t == "tool_use" && decide (i ∈ blockedIdx) then none else some i
  | _ => none

/-- mapInsert is Go map assignment on an association list: overwrite the
key's binding. -/
def mapInsert (m : List (Int × Nat)) (k : Int) (v : Nat) : List (Int × Nat) :=
  m.filter (fun p => !(p.1 == k)) ++ [(k, v)]

/-- alookup is Go map lookup on an association list built by
`mapInsert`. -/
def alookup (m : List (Int × Nat)) (k : Int) : Option Nat :=
  (m.find? (fun p => p.1 == k)).map (·.2)

/-- buildIndexMap is the first pass of `buildModifiedAnthropicStream`:
walk the content_block_start events, give each kept block the next new
index, and return the old-to-new map together with the next free index
(the slot for the injected notice block). -/
def buildIndexMap (blockedIdx : List Int) :
    List AnthEvent → List (Int × Nat) → Nat → List (Int × Nat) × Nat
  | [], m, n => (m, n)
  | e :: rest, m, n =>
    match keptStart blockedIdx e with
    | some i => buildIndexMap blockedIdx rest (mapInsert m i n) (n + 1)
    | none => buildIndexMap blockedIdx rest m n

/-- setEventIndex writes a new index into an indexed event (the modelled
counterpart of re-serializing with a replaced `index` field). -/
def setEventIndex (e : AnthEvent) (j : Nat) : AnthEvent :=
  match e with
  | .blockStart _ t id => .blockStart j t id
  | .blockDelta _ => .blockDelta j
  | .blockStop _ => .blockStop j
  | e => e

/-- reindexEvent embeds `proxy.reindexEvent`: remap the event's index
through the map; an unmapped index leaves the event unchanged (the Go
shortcut for an unchanged index re-emits the same event and has the same
denotation). -/
def reindexEvent (m : List (Int × Nat)) (e : AnthEvent) (i : Int) :
    AnthEvent :=
  match alookup m i with
  | none => e
  | some j => setEventIndex e j

/-- allToolsBlocked embeds `proxy.allToolsBlocked`: every tool_use
content_block_start in the stream carries a blocked index. -/
def allToolsBlocked (events : List AnthEvent) (blockedIdx : List Int) :
    Bool :=
  events.all (fun e =>
    match e with
    | .blockStart i t _ => !(t == "tool_use") || decide (i ∈ blockedIdx)
    | _ => true)

/-- buildTextBlockEvents embeds `proxy.buildTextBlockEvents`: the
start/delta/stop triple of the injected notice text block at the given
index. -/
def buildTextBlockEvents (index : Nat) : List AnthEvent :=
  [.blockStart index "text" "", .blockDelta index, .blockStop index]

/-- anthStreamGo is the second pass of `buildModifiedAnthropicStream`,
with the skipped-block tracker threaded through (initially `-1`). -/
def anthStreamGo (blockedIdx : List Int) (m : List (Int × Nat)) (k : Nat)
    (allBlocked : Bool) (msgs : List String) :
    List AnthEvent → Int → List AnthEvent
  | [], _ => []
  | e :: rest, skip =>
    match e with
    | .messageStart =>
      e :: anthStreamGo blockedIdx m k allBlocked msgs rest skip
    | .blockStart i t id =>
      if t == "tool_use" && decide (i ∈ blockedIdx) then
        anthStreamGo blockedIdx m k allBlocked msgs rest i
      else
        reindexEvent m (.blockStart i t id) i ::
          anthStreamGo blockedIdx m k allBlocked msgs rest (-1)
    | .blockDelta i =>
      if i = skip then
        anthStreamGo blockedIdx m k allBlocked msgs rest skip
      else
        reindexEvent m (.blockDelta i) i ::
          anthStreamGo blockedIdx m k allBlocked msgs rest skip
    | .blockStop i =>
      if i = skip then
        anthStreamGo blockedIdx m k allBlocked msgs rest (-1)
      else
        reindexEvent m (.blockStop i) i ::
          anthStreamGo blockedIdx m k allBlocked msgs rest skip
    | .messageDelta sr =>
      (if allBlocked then AnthEvent.messageDelta "end_turn"
       else AnthEvent.messageDelta sr) ::
        anthStreamGo blockedIdx m k allBlocked msgs rest skip
    | .messageStop =>
      (if msgs.isEmpty then [AnthEvent.messageStop]
       else buildTextBlockEvents k ++ [AnthEvent.messageStop]) ++
        anthStreamGo blockedIdx m k allBlocked msgs rest skip
    | .passthrough =>
      e :: anthStreamGo blockedIdx m k allBlocked msgs rest skip

/-- buildModifiedAnthropicStream embeds the Go function of the same name:
build the re-index map over the kept blocks, then replay the stream
skipping blocked tool_use blocks, re-indexing the rest, downgrading the
stop reason when every tool_use was blocked, and injecting the notice
block before message_stop. -/
def buildModifiedAnthropicStream (events : List AnthEvent)
    (blocked : List ToolCallM) (msgs : List String) : List AnthEvent :=
  let blockedIdx := blocked.map (·.index)
  let (m, k) := buildIndexMap blockedIdx events [] 0
  let ab := !blocked.isEmpty && allToolsBlocked events blockedIdx
  anthStreamGo blockedIdx m k ab msgs events (-1)

/-- OAIFrag is one entry of a streamed OpenAI `delta.tool_calls` array:
the rewriter reads its index; the id is passthrough payload. -/
structure OAIFrag where
  index : Int
  id : String := ""
deriving DecidableEq

/-- OAIDelta is a streamed OpenAI `choices[0].delta`: the optional
tool_calls array (absent models a missing key) and the optional content
text. -/
structure OAIDelta where
  toolCalls : Option (List OAIFrag) := none
  content : Option String := none
deriving DecidableEq

/-- OAIChoiceS is one entry of a streamed OpenAI chunk's `choices`. -/
structure OAIChoiceS where
  delta : Option OAIDelta := none
  finishReason : Option String := none
deriving DecidableEq

/-- OAIEvent is one OpenAI SSE event as `buildModifiedOpenAIStream`
distinguishes them: the `[DONE]` sentinel, a decoded chunk, or anything
the rewriter passes through without decoding (empty data, unparseable
JSON). -/
inductive OAIEvent where
  | done
  | chunk (choices : List OAIChoiceS)
  | rawEvt
deriving DecidableEq

/-- seenToolIndexes collects the tool-call indexes that
`allOpenAIToolsBlocked` scans: every index of every fragment in choice 0
of every decodable chunk. -/
def seenToolIndexes (events : List OAIEvent) : List Int :=
  events.flatMap (fun e =>
    match e with
    | .chunk (c :: _) =>
      match c.delta with
      | some d => (d.toolCalls.getD []).map (·.index)
      | none => []
    | _ => [])

/-- allOpenAIToolsBlocked embeds the Go function of the same name: some
tool-call index was seen and every seen index is blocked. -/
def allOpenAIToolsBlocked (events : List OAIEvent) (blockedIdx : List Int) :
    Bool :=
  let seen := seenToolIndexes events
  seen.all (· ∈ blockedIdx) && !seen.isEmpty

/-- modifyOAIEvent is the per-event body of `buildModifiedOpenAIStream`:
filter blocked fragments out of choice 0's delta (deleting the key when
nothing is kept), rewrite a `tool_calls` finish reason to `stop` when
every tool call was blocked, and re-emit only choice 0; events without a
decodable chunk, choices, or delta pass through unchanged. -/
def modifyOAIEvent (blockedIdx : List Int) (allBlocked : Bool)
    (e : OAIEvent) : OAIEvent :=
  match e with
  | .chunk (c :: rest) =>
    match c.delta with
    | none => .chunk (c :: rest)
    | some d =>
      let d :=
        match d.toolCalls with
        | some tcs =>
          let kept := tcs.filter (fun t => !(t.index ∈ blockedIdx))
          if kept.isEmpty then { d with toolCalls := none }
          else { d with toolCalls := some kept }
        | none => d
      let fr :=
        match c.finishReason with
        | some s => if s == "tool_calls" && allBlocked then some "stop" else some s
        | none => none
      .chunk [{ delta := some d, finishReason := fr }]
  | e => e

/-- buildBlockNoticeText embeds the Go function of the same name. -/
def buildBlockNoticeText (messages : List String) : String :=
  match messages with
  | [m] => m
  | _ =>
    "[CtrlAI] Multiple tool calls blocked:\n" ++
      String.join (messages.map (fun m => "  - " ++ m ++ "\n"))

/-- buildOpenAIContentDelta embeds the Go function of the same name: a
chunk whose delta carries the notice text as content. -/
def buildOpenAIContentDelta (text : String) : OAIEvent :=
  .chunk [{ delta := some { content := some ("\n\n" ++ text) } }]

/-- buildModifiedOpenAIStream embeds the Go function of the same name:
rewrite every event, then insert the notice chunk before a trailing
`[DONE]` (or append it when the stream does not end with one).  Note that
kept tool-call fragments retain their original index field — there is no
re-indexing pass on this path. -/
def buildModifiedOpenAIStream (events : List OAIEvent)
    (blocked : List ToolCallM) (msgs : List String) : List OAIEvent :=
  let blockedIdx := blocked.map (·.index)
  let ab := allOpenAIToolsBlocked events blockedIdx
  let modified := events.map (modifyOAIEvent blockedIdx ab)
  if msgs.isEmpty then modified
  else
    let notice := buildOpenAIContentDelta (buildBlockNoticeText msgs)
    match modified.getLast? with
    | some .done => modified.dropLast ++ [notice, .done]
    | _ => modified ++ [notice]

/-! ### SSE stream parser (`sse_reader`, `parseSSEStream`)

`parseSSEStream` scans the body line by line; it is embedded over the
list of scanned lines.  Its callers (`bufferAll`) pass the resulting
event list on unchanged, so the buffered event sequence of a stream is
exactly this function's output; the deadline path of `bufferAll`
truncates the line list and is not separately modelled. -/

/-- SSEEvent mirrors `proxy.SSEEvent`. -/
structure SSEEvent where
  event : String
  data : String
deriving DecidableEq

/-- parseSSELines is the scanner loop of `proxy.parseSSEStream`, with the
current event name and accumulated data threaded through: blank lines
flush the pending event (dropping pings), `event:` and `data:` lines
accumulate, anything else (comments included) is ignored, and the loop
breaks right after flushing an event named message_stop or carrying the
data `[DONE]`. -/
def parseSSELines : List String → String → String → List SSEEvent
  | [], _, _ => []
  | line :: rest, curEvent, curData =>
    if line = "" then
      if curData ≠ "" then
        if curEvent = "message_stop" ∨ curData = "[DONE]" then
          (if curEvent ≠ "ping" then [⟨curEvent, curData⟩] else [])
        else
          (if curEvent ≠ "ping" then [⟨curEvent, curData⟩] else []) ++
            parseSSELines rest "" ""
      else
        parseSSELines rest "" ""
    else if hasPrefixStr line "event:" then
      parseSSELines rest (trimStr (goTrimLeft line "event:")) curData
    else if hasPrefixStr line "data:" then
      let d := trimStr (goTrimLeft line "data:")
      parseSSELines rest curEvent
        (if curData = "" then d else curData ++ "\n" ++ d)
    else
      parseSSELines rest curEvent curData

/-- parseSSEStream embeds `proxy.parseSSEStream` over the scanned
lines. -/
def parseSSEStream (lines : List String) : List SSEEvent :=
  parseSSELines lines "" ""

/-- isTerminalEvent marks the two flush conditions on which the scanner
breaks. -/
def isTerminalEvent (e : SSEEvent) : Bool :=
  e.event == "message_stop" || e.data == "[DONE]"

/-! ### Specification-side definitions

Definitions below this point are not embeddings of source functions; they
state the properties proved about the embeddings (chain predicates, first
failing index, projections of event lists) and supply concrete stand-ins
for the external function parameters used by witnesses. -/

/-- mkEntry is the entry `audit.append` constructs from a predecessor
entry: next seq, linked prevHash, computed hash. -/
def mkEntry (sha : String → String) (prev : Entry) (r : AppendReq) : Entry :=
  let e : Entry :=
    { seq := prev.seq + 1, timestamp := r.timestamp, agent := r.agent,
      tool := r.tool, decision := r.decision, prevHash := prev.hash,
      hash := "" }
  { e with hash := computeHash sha e }

/-- chainEntries is the pure chain grown from a predecessor entry by a
list of append requests. -/
def chainEntries (sha : String → String) (prev : Entry) :
    List AppendReq → List Entry
  | [] => []
  | r :: rs =>
    let e := mkEntry sha prev r
    e :: chainEntries sha e rs

/-- chainedFrom states the claimed chain invariant along a list: each
entry's seq is its predecessor's plus one, its prevHash is the
predecessor's hash, and its hash recomputes. -/
def chainedFrom (sha : String → String) : Entry → List Entry → Bool
  | _, [] => true
  | prev, e :: rest =>
    e.seq == prev.seq + 1 && e.prevHash == prev.hash &&
      e.hash == computeHash sha e && chainedFrom sha e rest

/-- genesisOK states the claimed shape of the genesis entry. -/
def genesisOK (sha : String → String) (g : Entry) : Bool :=
  g.seq == 0 && g.prevHash == "sha256:genesis" &&
    g.hash == computeHash sha g

/-- prevOf gives the predecessor entry at an index (none at index 0),
for stating which link the verifier checks. -/
def prevOf (es : List Entry) (i : Nat) : Option Entry :=
  if i = 0 then none else es[i - 1]?

/-- prevAt generalizes `prevOf` with an explicit predecessor for index 0,
the generalization the verification-loop induction walks over;
`prevOf es = prevAt none es`. -/
def prevAt (prev : Option Entry) (es : List Entry) (i : Nat) :
    Option Entry :=
  if i = 0 then prev else es[i - 1]?

/-- firstBadIdx is the first index whose entry fails the per-index pass
condition (hash recomputes, and for a non-first entry the prevHash link
holds), the claim's notion of where verification must reject. -/
def firstBadIdx (sha : String → String) :
    Option Entry → List Entry → Option Nat
  | _, [] => none
  | prev, e :: rest =>
    if linkOK sha prev e then (firstBadIdx sha (some e) rest).map (· + 1)
    else some 0

/-- shaDemo is a concrete stand-in for the external SHA-256 digest used
by witnesses: the rendered length of the input (enough to distinguish
inputs of different lengths, which is all the concrete instances need). -/
def shaDemo (s : String) : String :=
  toString s.length

/-- trivialMatchers is a concrete stand-in for the external regex, glob
and marshalling functions used by witnesses: everything compiles, no
pattern matches, marshalling is empty. -/
def trivialMatchers : ExternalMatchers :=
  { regexCompiles := fun _ => true, globCompiles := fun _ => true,
    regexMatches := fun _ _ => false, globMatches := fun _ _ => false,
    marshalArgs := fun _ => "" }

/-- demoReqs is a concrete three-append run used by the tampering
instance. -/
def demoReqs : List AppendReq :=
  [ { timestamp := "T1", agent := "alice", tool := "exec",
      decision := "allow" },
    { timestamp := "T2", agent := "bob", tool := "read",
      decision := "block" },
    { timestamp := "T3", agent := "carol", tool := "write",
      decision := "allow" } ]

/-- demoDaily is the daily file content after the three demo appends on a
fresh directory. -/
def demoDaily : List Entry :=
  (applyAppends shaDemo (initialState shaDemo "T0") demoReqs).daily

/-- demoTampered is demoDaily with the middle entry's agent field
mutated in place, the tampering scenario of the spec. -/
def demoTampered : List Entry :=
  match demoDaily with
  | [a, b, c] => [a, { b with agent := "tampered" }, c]
  | l => l

/-- demoRespBody is a concrete OpenAI Responses body with two function
calls and a non-completed status. -/
def demoRespBody : ResponsesBody :=
  { output :=
      [{ itemType := "function_call", callID := "call_a" },
       { itemType := "function_call", callID := "call_b" }],
    status := "in_progress" }

/-- demoBlockedA is a concrete blocked set holding the single invocation
with id call_a at index 0. -/
def demoBlockedA : List ToolCallM :=
  [{ id := "call_a", name := "exec", index := 0 }]

/-- demoDecisions is the matching one-decision list. -/
def demoDecisions : List Decision :=
  [{ action := "block", rule := "r", message := "m" }]

/-- demoBlockedT is a blocked set naming the first tool_use of the demo
Anthropic body and stream (id toolu_1, stream index 1). -/
def demoBlockedT : List ToolCallM :=
  [{ id := "toolu_1", name := "exec", index := 1 }]

/-- demoAnthBody is a concrete Anthropic body with a text block and one
tool_use block, ending in stop_reason tool_use. -/
def demoAnthBody : AnthropicBody :=
  { content :=
      [{ btype := "text" }, { btype := "tool_use", id := "toolu_1" }],
    stopReason := "tool_use" }

/-- demoOAIEvents is a concrete OpenAI chat stream: one chunk carrying
tool-call fragments at indexes 0 and 1, then the done sentinel. -/
def demoOAIEvents : List OAIEvent :=
  [.chunk
      [{ delta :=
           some { toolCalls :=
                    some [{ index := 0, id := "call_a" },
                          { index := 1, id := "call_b" }] } }],
   .done]

/-- demoAnthEvents is a concrete Anthropic stream: a text block at index
0, tool_use blocks at indexes 1 and 2, a message_delta and
message_stop. -/
def demoAnthEvents : List AnthEvent :=
  [.messageStart,
   .blockStart 0 "text" "",
   .blockDelta 0,
   .blockStop 0,
   .blockStart 1 "tool_use" "toolu_1",
   .blockDelta 1,
   .blockStop 1,
   .blockStart 2 "tool_use" "toolu_2",
   .blockDelta 2,
   .blockStop 2,
   .messageDelta "tool_use",
   .messageStop]

/-- demoSSELines is a scanned SSE body whose response.completed event is
followed by a further event. -/
def demoSSELines : List String :=
  ["event: response.completed", "data: ok", "",
   "event: later", "data: more", ""]

/-- demoSSEStopLines is a scanned SSE body ending in message_stop. -/
def demoSSEStopLines : List String :=
  ["event: message_stop", "data: x", ""]

/-- toolUses projects the tool_use blocks out of an Anthropic content
array. -/
def toolUses (content : List ABlock) : List ABlock :=
  content.filter (fun b => b.btype == "tool_use")

/-- anthStartInfo projects a content_block_start event to its index, type
and id. -/
def anthStartInfo : AnthEvent → Option (Int × String × String)
  | .blockStart i t id => some (i, t, id)
  | _ => none

/-- keptFull lists the kept (not blocked tool_use) content_block_start
events of a stream as (original index, type, id) triples, in order. -/
def keptFull (blockedIdx : List Int) (events : List AnthEvent) :
    List (Int × String × String) :=
  events.filterMap (fun e =>
    match e with
    | .blockStart i t id =>
      if t == "tool_use" && decide (i ∈ blockedIdx) then none
      else some (i, t, id)
    | _ => none)

/-- startContrib is the per-event contribution of the rewritten Anthropic
stream to the list of emitted content_block_start infos. -/
def startContrib (blockedIdx : List Int) (m : List (Int × Nat)) (k : Nat)
    (msgs : List String) : AnthEvent → List (Int × String × String)
  | .blockStart i t id =>
    if t == "tool_use" && decide (i ∈ blockedIdx) then []
    else
      [match alookup m i with
       | some j => ((j : Int), t, id)
       | none => (i, t, id)]
  | .messageStop => if msgs.isEmpty then [] else [((k : Int), "text", "")]
  | _ => []

/-- fragsOf projects the tool-call fragments of choice 0 of an OpenAI
stream event. -/
def fragsOf : OAIEvent → List OAIFrag
  | .chunk (c :: _) =>
    match c.delta with
    | some d => d.toolCalls.getD []
    | none => []
  | _ => []

/-! ### Theorems -/

/-- C1: the spec's wire-format table maps a downstream path beginning with
/v1/responses to OpenAIResponses, a value distinct from OpenAIChat, and
the router's own unit test (`TestDetectAPIType`) expects the same.  The
shipped `detectAPIType` instead returns the plain OpenAI chat constant on
that prefix, so `ParseRoute` routes Responses-API traffic as OpenAIChat;
the other three rows of the table hold as stated. -/
theorem C1_responses_path_detected_as_plain_openai :
    detectAPIType "/v1/responses" = APIType.openAI ∧
    ParseRoute "/provider/openai/v1/responses" =
      Except.ok { providerKey := "openai", agentID := "default",
                  apiPath := "/v1/responses", apiType := APIType.openAI } ∧
    APIType.openAI ≠ APIType.openAIResponses ∧
    detectAPIType "/v1/messages" = APIType.anthropic ∧
    detectAPIType "/v1/chat/completions" = APIType.openAI ∧
    detectAPIType "/v1/embeddings" = APIType.unknown := by
  refine ⟨by decide, ?_, by decide, by decide, by decide, by decide⟩
  rfl

/-- applyAppends unfolds to the pure chain grown from any predecessor
whose seq and hash agree with the state. -/
theorem applyAppends_spec (sha : String → String) (rs : List AppendReq) :
    ∀ (st : LogState) (prev : Entry), st.seq = prev.seq →
      st.lastHash = prev.hash →
      (applyAppends sha st rs).daily = st.daily ++ chainEntries sha prev rs ∧
      (applyAppends sha st rs).seq = prev.seq + rs.length := by
  induction rs with
  | nil =>
    intro st prev hseq _
    simp [applyAppends, chainEntries, hseq]
  | cons r rs ih =>
    intro st prev hseq hhash
    have hstep : appendEntry sha st r =
        { seq := (mkEntry sha prev r).seq,
          lastHash := (mkEntry sha prev r).hash,
          daily := st.daily ++ [mkEntry sha prev r] } := by
      simp [appendEntry, mkEntry, hseq, hhash, computeHash, hashInput]
    have happ : applyAppends sha st (r :: rs) =
        applyAppends sha (appendEntry sha st r) rs := rfl
    have h := ih (appendEntry sha st r) (mkEntry sha prev r)
      (by rw [hstep]) (by rw [hstep])
    rw [happ, h.1, h.2, hstep]
    constructor
    · simp [chainEntries]
    · simp [mkEntry]
      omega

/-- chainEntries satisfies the chain invariant from its seed. -/
theorem chainEntries_chained (sha : String → String) (rs : List AppendReq) :
    ∀ prev, chainedFrom sha prev (chainEntries sha prev rs) = true := by
  induction rs with
  | nil => intro prev; rfl
  | cons r rs ih =>
    intro prev
    have hhash : (mkEntry sha prev r).hash =
        computeHash sha (mkEntry sha prev r) := rfl
    simp [chainEntries, chainedFrom, mkEntry, computeHash, hashInput]
    exact ih (mkEntry sha prev r)

/-- chainEntries numbers its entries consecutively from the seed's seq. -/
theorem chainEntries_seq (sha : String → String) (rs : List AppendReq) :
    ∀ prev, (chainEntries sha prev rs).map (fun e => e.seq) =
      (List.range rs.length).map (fun i => prev.seq + 1 + i) := by
  induction rs with
  | nil => intro prev; rfl
  | cons r rs ih =>
    intro prev
    have h := ih (mkEntry sha prev r)
    simp only [chainEntries, List.map_cons, h, List.length_cons,
      List.range_succ_eq_map, List.map_map]
    congr 1
    apply List.map_congr_left
    intro a _
    show (mkEntry sha prev r).seq + 1 + a = prev.seq + 1 + Nat.succ a
    simp only [mkEntry]
    omega

/-- C5: starting from the genesis entry (seq 0, prevHash
"sha256:genesis", hash recomputable from its rendered fields), every
sequence of appends yields a daily chain in which each entry's hash is
the rendered digest of "prevHash|seq|timestamp|agent|tool|decision", each
entry's prevHash is its predecessor's hash, and each seq is the
predecessor's plus one — so the seqs of genesis plus appended entries are
exactly 0, 1, …, n, dense and strictly increasing. -/
theorem C5_audit_chain (sha : String → String) (ts : String)
    (rs : List AppendReq) :
    genesisOK sha (createGenesis sha ts) = true ∧
    chainedFrom sha (createGenesis sha ts)
      (applyAppends sha (initialState sha ts) rs).daily = true ∧
    (createGenesis sha ts ::
        (applyAppends sha (initialState sha ts) rs).daily).map
      (fun e => e.seq) = List.range (rs.length + 1) := by
  have hspec := applyAppends_spec sha rs (initialState sha ts)
    (createGenesis sha ts) rfl rfl
  refine ⟨?_, ?_, ?_⟩
  · simp [genesisOK, createGenesis, computeHash, hashInput]
  · rw [hspec.1]
    simpa [initialState] using chainEntries_chained sha rs (createGenesis sha ts)
  · rw [hspec.1]
    have hseq := chainEntries_seq sha rs (createGenesis sha ts)
    have hg : (createGenesis sha ts).seq = 0 := rfl
    simp only [initialState, List.nil_append, List.map_cons, hseq, hg,
      List.range_succ_eq_map, List.map_map]
    congr 1
    apply List.map_congr_left
    intro a _
    show 0 + 1 + a = Nat.succ a
    omega

/-- verifyLoop rejects immediately on a head entry failing the pass
condition, reporting the current index. -/
theorem verifyLoop_head_bad (sha : String → String) (prev : Option Entry)
    (i : Nat) (e : Entry) (rest : List Entry)
    (h : linkOK sha prev e = false) :
    (verifyLoop sha prev i (e :: rest)).valid = false ∧
    (verifyLoop sha prev i (e :: rest)).brokenAt = i ∧
    (verifyLoop sha prev i (e :: rest)).entriesChecked = i + 1 := by
  by_cases hh : e.hash = computeHash sha e
  · cases prev with
    | none => simp [linkOK, hh] at h
    | some p =>
      have hl : e.prevHash ≠ p.hash := by
        intro he
        simp [linkOK, hh, he] at h
      simp [verifyLoop, hh, hl]
  · simp [verifyLoop, hh]

/-- verifyLoop recurses past a head entry passing the pass condition. -/
theorem verifyLoop_head_ok (sha : String → String) (prev : Option Entry)
    (i : Nat) (e : Entry) (rest : List Entry)
    (h : linkOK sha prev e = true) :
    verifyLoop sha prev i (e :: rest) = verifyLoop sha (some e) (i + 1) rest := by
  cases prev with
  | none =>
    have hh : e.hash = computeHash sha e := by
      simpa [linkOK] using h
    simp [verifyLoop, hh]
  | some p =>
    rw [linkOK, Bool.and_eq_true] at h
    have hh : e.hash = computeHash sha e := by
      simpa using h.1
    have hl : e.prevHash = p.hash := by
      simpa using h.2
    simp [verifyLoop, hh, hl]

/-- firstBadIdx steps past a passing head entry. -/
theorem firstBadIdx_cons_ok (sha : String → String) (prev : Option Entry)
    (e : Entry) (rest : List Entry) (h : linkOK sha prev e = true) :
    firstBadIdx sha prev (e :: rest) =
      (firstBadIdx sha (some e) rest).map (· + 1) := by
  simp [firstBadIdx, h]

/-- firstBadIdx is zero on a failing head entry. -/
theorem firstBadIdx_cons_bad (sha : String → String) (prev : Option Entry)
    (e : Entry) (rest : List Entry) (h : linkOK sha prev e = false) :
    firstBadIdx sha prev (e :: rest) = some 0 := by
  simp [firstBadIdx, h]

/-- verifyLoop is determined by the first failing index: all-pass chains
verify valid with every entry checked, and a first failure at j yields an
invalid result broken at j after checking j + 1 entries. -/
theorem verifyLoop_firstBad (sha : String → String) :
    ∀ (es : List Entry) (prev : Option Entry) (i : Nat),
      (firstBadIdx sha prev es = none →
        verifyLoop sha prev i es =
          { valid := true, entriesChecked := i + es.length, brokenAt := 0,
            expectedHash := "", actualHash := "" }) ∧
      (∀ j, firstBadIdx sha prev es = some j →
        (verifyLoop sha prev i es).valid = false ∧
        (verifyLoop sha prev i es).brokenAt = i + j ∧
        (verifyLoop sha prev i es).entriesChecked = i + j + 1) := by
  intro es
  induction es with
  | nil =>
    intro prev i
    refine ⟨fun _ => ?_, fun j hj => ?_⟩
    · simp [verifyLoop]
    · simp [firstBadIdx] at hj
  | cons e rest ih =>
    intro prev i
    by_cases hok : linkOK sha prev e = true
    · rw [verifyLoop_head_ok sha prev i e rest hok]
      refine ⟨fun hnone => ?_, fun j hj => ?_⟩
      · rw [firstBadIdx_cons_ok sha prev e rest hok] at hnone
        have hrec : firstBadIdx sha (some e) rest = none := by
          cases hx : firstBadIdx sha (some e) rest <;> simp [hx] at hnone ⊢
        rw [(ih (some e) (i + 1)).1 hrec]
        simp only [List.length_cons, VerifyResult.mk.injEq, true_and,
          and_true]
        omega
      · rw [firstBadIdx_cons_ok sha prev e rest hok] at hj
        rw [Option.map_eq_some'] at hj
        obtain ⟨j', hj', hjeq⟩ := hj
        have h3 := (ih (some e) (i + 1)).2 j' hj'
        refine ⟨h3.1, ?_, ?_⟩
        · rw [h3.2.1]; omega
        · rw [h3.2.2]; omega
    · have hok' : linkOK sha prev e = false := by
        revert hok; cases linkOK sha prev e <;> simp
      refine ⟨fun hnone => ?_, fun j hj => ?_⟩
      · rw [firstBadIdx_cons_bad sha prev e rest hok'] at hnone
        exact absurd hnone (by simp)
      · rw [firstBadIdx_cons_bad sha prev e rest hok'] at hj
        have hj0 : j = 0 := by
          have := hj.symm
          simpa using this
        subst hj0
        have hb := verifyLoop_head_bad sha prev i e rest hok'
        refine ⟨hb.1, ?_, ?_⟩
        · rw [hb.2.1]; omega
        · rw [hb.2.2]

/-- prevAt shifts across a cons. -/
theorem prevAt_cons (prev : Option Entry) (e : Entry) (rest : List Entry)
    (i : Nat) : prevAt prev (e :: rest) (i + 1) = prevAt (some e) rest i := by
  cases i with
  | zero => simp [prevAt]
  | succ n => simp [prevAt]

/-- firstBadIdx finds exactly the first index whose entry fails the pass
condition against its predecessor. -/
theorem firstBadIdx_spec (sha : String → String) :
    ∀ (es : List Entry) (prev : Option Entry),
      (firstBadIdx sha prev es = none →
        ∀ i e, es[i]? = some e → linkOK sha (prevAt prev es i) e = true) ∧
      (∀ j, firstBadIdx sha prev es = some j →
        ∃ e, es[j]? = some e ∧ linkOK sha (prevAt prev es j) e = false ∧
          ∀ i e', i < j → es[i]? = some e' →
            linkOK sha (prevAt prev es i) e' = true) := by
  intro es
  induction es with
  | nil =>
    intro prev
    refine ⟨fun _ i e he => ?_, fun j hj => ?_⟩
    · simp at he
    · simp [firstBadIdx] at hj
  | cons e rest ih =>
    intro prev
    by_cases hok : linkOK sha prev e = true
    · refine ⟨fun hnone i e' he' => ?_, fun j hj => ?_⟩
      · rw [firstBadIdx_cons_ok sha prev e rest hok] at hnone
        have hrec : firstBadIdx sha (some e) rest = none := by
          cases hx : firstBadIdx sha (some e) rest <;> simp [hx] at hnone ⊢
        cases i with
        | zero =>
          simp at he'
          subst he'
          simpa [prevAt] using hok
        | succ n =>
          rw [prevAt_cons]
          simp at he'
          exact (ih (some e)).1 hrec n e' he'
      · rw [firstBadIdx_cons_ok sha prev e rest hok] at hj
        rw [Option.map_eq_some'] at hj
        obtain ⟨j', hj', hjeq⟩ := hj
        obtain ⟨e', he', hbad, hbelow⟩ := (ih (some e)).2 j' hj'
        subst hjeq
        refine ⟨e', by simpa using he', by rwa [prevAt_cons], ?_⟩
        intro i e'' hi hie
        cases i with
        | zero =>
          simp at hie
          subst hie
          simpa [prevAt] using hok
        | succ n =>
          rw [prevAt_cons]
          simp at hie
          exact hbelow n e'' (by omega) hie
    · have hok' : linkOK sha prev e = false := by
        revert hok; cases linkOK sha prev e <;> simp
      refine ⟨fun hnone => ?_, fun j hj => ?_⟩
      · rw [firstBadIdx_cons_bad sha prev e rest hok'] at hnone
        exact absurd hnone (by simp)
      · rw [firstBadIdx_cons_bad sha prev e rest hok'] at hj
        have hj0 : j = 0 := by
          have := hj.symm
          simpa using this
        subst hj0
        refine ⟨e, by simp, by simpa [prevAt] using hok', ?_⟩
        intro i e'' hi _
        omega

/-- C6: VerifyChain reads the daily entries in order and rejects exactly
at the first index i where the recomputed hash differs from the stored
hash or (for i > 0) the prevHash differs from the predecessor's hash —
valid with all entries checked when no such index exists, invalid with
brokenAt = i and i + 1 entries checked at the first such i; concretely,
for the three-entry chain whose middle entry's agent field is mutated in
the file, it returns invalid with brokenAt = 1 (while the untampered
chain verifies valid). -/
theorem C6_verify_rejects_first_tampered_index :
    (∀ (sha : String → String) (d : AuditDir),
      (∀ i e, d.daily[i]? = some e →
          linkOK sha (prevOf d.daily i) e = true) →
        VerifyChain sha d =
          { valid := true, entriesChecked := d.daily.length, brokenAt := 0,
            expectedHash := "", actualHash := "" }) ∧
    (∀ (sha : String → String) (d : AuditDir) (j : Nat),
      firstBadIdx sha none d.daily = some j →
        (∃ e, d.daily[j]? = some e ∧
            linkOK sha (prevOf d.daily j) e = false ∧
            ∀ i e', i < j → d.daily[i]? = some e' →
              linkOK sha (prevOf d.daily i) e' = true) ∧
        (VerifyChain sha d).valid = false ∧
        (VerifyChain sha d).brokenAt = j ∧
        (VerifyChain sha d).entriesChecked = j + 1) ∧
    (VerifyChain shaDemo
        { genesis := some (createGenesis shaDemo "T0"),
          daily := demoTampered }).valid = false ∧
    (VerifyChain shaDemo
        { genesis := some (createGenesis shaDemo "T0"),
          daily := demoTampered }).brokenAt = 1 ∧
    (VerifyChain shaDemo
        { genesis := some (createGenesis shaDemo "T0"),
          daily := demoDaily }).valid = true := by
  have hPrevAt : ∀ (es : List Entry) (i : Nat), prevAt none es i = prevOf es i := by
    intro es i
    cases i <;> simp [prevAt, prevOf]
  refine ⟨?_, ?_, by decide, by decide, by decide⟩
  · intro sha d hall
    have hnone : firstBadIdx sha none d.daily = none := by
      cases hx : firstBadIdx sha none d.daily with
      | none => rfl
      | some j =>
        obtain ⟨e, he, hbad, _⟩ := (firstBadIdx_spec sha d.daily none).2 j hx
        rw [hPrevAt] at hbad
        rw [hall j e he] at hbad
        exact absurd hbad (by simp)
    have := (verifyLoop_firstBad sha d.daily none 0).1 hnone
    simpa [VerifyChain] using this
  · intro sha d j hj
    obtain ⟨e, he, hbad, hbelow⟩ := (firstBadIdx_spec sha d.daily none).2 j hj
    have hv := (verifyLoop_firstBad sha d.daily none 0).2 j hj
    refine ⟨⟨e, he, ?_, ?_⟩, hv.1, by simpa using hv.2.1, by simpa using hv.2.2⟩
    · rwa [hPrevAt] at hbad
    · intro i e' hi hie
      have := hbelow i e' hi hie
      rwa [hPrevAt] at this

/-- C6 witness: the theorem applied to the tampered three-entry chain,
whose first failing index is 1, and to the empty directory, whose chain
verifies vacuously valid. -/
theorem C6_witness :
    firstBadIdx shaDemo none demoTampered = some 1 ∧
    (VerifyChain shaDemo { genesis := none, daily := demoTampered }).valid
      = false ∧
    (VerifyChain shaDemo { genesis := none, daily := demoTampered }).brokenAt
      = 1 ∧
    VerifyChain shaDemo { genesis := none, daily := [] } =
      { valid := true, entriesChecked := 0, brokenAt := 0,
        expectedHash := "", actualHash := "" } := by
  have h := C6_verify_rejects_first_tampered_index.2.1 shaDemo
    { genesis := none, daily := demoTampered } 1 (by decide)
  have h0 := C6_verify_rejects_first_tampered_index.1 shaDemo
    { genesis := none, daily := [] } (by intro i e he; simp at he)
  exact ⟨by decide, h.2.1, h.2.2.1, by simpa using h0⟩

/-- chainedFrom chains pass the verifier's per-index condition at every
position, whether or not a predecessor is supplied for index 0 (the
verifier never checks the link into the seed). -/
theorem chained_firstBad (sha : String → String) :
    ∀ (tail : List Entry) (prev : Entry),
      chainedFrom sha prev tail = true →
      firstBadIdx sha none tail = none ∧
      firstBadIdx sha (some prev) tail = none := by
  intro tail
  induction tail with
  | nil => intro prev _; exact ⟨rfl, rfl⟩
  | cons e rest ih =>
    intro prev hch
    rw [chainedFrom, Bool.and_eq_true, Bool.and_eq_true, Bool.and_eq_true]
      at hch
    obtain ⟨⟨⟨_, hprev⟩, hhash⟩, hrec⟩ := hch
    have htail := (ih e hrec).2
    constructor
    · rw [firstBadIdx_cons_ok sha none e rest (by simp [linkOK]; simpa using hhash)]
      simp [htail]
    · rw [firstBadIdx_cons_ok sha (some prev) e rest
        (by simp [linkOK]; exact ⟨by simpa using hhash, by simpa using hprev⟩)]
      simp [htail]

/-- C10: the verification verdict is a function of the daily files alone —
two audit directories with the same daily entries verify identically no
matter how their genesis entries differ — and a chain of appends grown
from the genesis state verifies valid whatever entry (or no entry) sits
in the genesis file, since neither the genesis entry nor the link between
the genesis hash and the first daily entry's prevHash is ever checked. -/
theorem C10_verify_ignores_genesis :
    (∀ (sha : String → String) (d1 d2 : AuditDir), d1.daily = d2.daily →
      VerifyChain sha d1 = VerifyChain sha d2) ∧
    (∀ (sha : String → String) (ts : String) (rs : List AppendReq)
        (g' : Option Entry),
      (VerifyChain sha
          { genesis := g',
            daily :=
              (applyAppends sha (initialState sha ts) rs).daily }).valid
        = true) := by
  constructor
  · intro sha d1 d2 h
    simp [VerifyChain, h]
  · intro sha ts rs g'
    have hspec := applyAppends_spec sha rs (initialState sha ts)
      (createGenesis sha ts) rfl rfl
    have hch := chainEntries_chained sha rs (createGenesis sha ts)
    have hfb := (chained_firstBad sha
      (chainEntries sha (createGenesis sha ts) rs)
      (createGenesis sha ts) hch).1
    have hv := (verifyLoop_firstBad sha
      (chainEntries sha (createGenesis sha ts) rs) none 0).1 hfb
    show (verifyLoop sha none 0
      (applyAppends sha (initialState sha ts) rs).daily).valid = true
    rw [hspec.1]
    simp only [initialState, List.nil_append]
    rw [hv]

/-- C10 witness: the theorem applied to two concrete directories sharing
the demo daily chain but disagreeing on the genesis entry, and to the
demo appends under an absent genesis file. -/
theorem C10_witness :
    VerifyChain shaDemo
        { genesis := some (createGenesis shaDemo "T0"),
          daily := demoDaily } =
      VerifyChain shaDemo { genesis := none, daily := demoDaily } ∧
    (VerifyChain shaDemo
        { genesis := none,
          daily :=
            (applyAppends shaDemo (initialState shaDemo "T0")
              demoReqs).daily }).valid = true :=
  ⟨C10_verify_ignores_genesis.1 shaDemo _ _ rfl,
   C10_verify_ignores_genesis.2 shaDemo "T0" demoReqs none⟩

/-- filterMap over the enabled-then-compile step collapses to a plain
filter when every rule's patterns compile. -/
theorem filterMap_compile_eq (M : ExternalMatchers) (en : Rule → Bool) :
    ∀ (l : List Rule), (∀ r ∈ l, compileRuleOk M r = true) →
      l.filterMap (fun r => if en r then compileRule M r else none) =
        l.filter en := by
  intro l
  induction l with
  | nil => intro _; rfl
  | cons r rest ih =>
    intro h
    have hr := h r (by simp)
    have hrest : ∀ x ∈ rest, compileRuleOk M x = true :=
      fun x hx => h x (by simp [hx])
    by_cases he : en r = true
    · have hcomp : compileRule M r = some r := by
        rw [compileRule, if_pos hr]
      simp only [List.filterMap_cons, List.filter_cons, he, if_true, hcomp,
        ih hrest]
    · have he' : en r = false := by revert he; cases en r <;> simp
      have hhead : (if en r = true then compileRule M r else none) = none := by
        rw [he']
        simp
      simp only [List.filterMap_cons, List.filter_cons, he',
        Bool.false_eq_true, if_false, hhead, ih hrest]

/-- C7: Evaluate returns the action, name and message of the first rule
of the active ruleset whose match spec is satisfied, and the default
allow decision with empty name and message when none is; the active
ruleset is the enabled built-ins in catalogue order (given that their
patterns compile, which they all do) followed by the custom rules in
declared order. -/
theorem C7_evaluate_first_match :
    (∀ (M : ExternalMatchers) (agentID : String) (tc : ToolCallE)
        (rules : List Rule),
      evalRules M agentID tc rules =
        match rules.find? (fun r => matchesRule M r agentID tc) with
        | some r =>
          { action := r.action, rule := r.name, message := r.message }
        | none => { action := "allow", rule := "", message := "" }) ∧
    (∀ (M : ExternalMatchers) (e : EngineState),
      (∀ r ∈ builtinRules, compileRuleOk M r = true) →
      activeRules M e =
        builtinRules.filter
          (fun r => (e.builtinToggles.lookup r.name).getD true) ++
          e.customRules) ∧
    (∀ (M : ExternalMatchers) (e : EngineState) (agentID : String)
        (tc : ToolCallE),
      (∀ r ∈ activeRules M e, matchesRule M r agentID tc = false) →
      Evaluate M e agentID tc =
        { action := "allow", rule := "", message := "" }) := by
  have h1 : ∀ (M : ExternalMatchers) (agentID : String) (tc : ToolCallE)
      (rules : List Rule),
      evalRules M agentID tc rules =
        match rules.find? (fun r => matchesRule M r agentID tc) with
        | some r =>
          { action := r.action, rule := r.name, message := r.message }
        | none => { action := "allow", rule := "", message := "" } := by
    intro M agentID tc rules
    induction rules with
    | nil => rfl
    | cons r rest ih =>
      by_cases hm : matchesRule M r agentID tc = true
      · simp [evalRules, List.find?_cons, hm]
      · have hm' : matchesRule M r agentID tc = false := by
          revert hm; cases matchesRule M r agentID tc <;> simp
        simp [evalRules, List.find?_cons, hm', ih]
  refine ⟨h1, ?_, ?_⟩
  · intro M e h
    show rebuildRules M e.builtinToggles e.customRules = _
    rw [rebuildRules, filterMap_compile_eq M _ builtinRules h]
  · intro M e agentID tc h
    rw [Evaluate, h1]
    rw [List.find?_eq_none.mpr]
    intro r hr
    simp [h r hr]

/-- C7 witness: the theorem applied to the default engine (no custom
rules, default toggles) under concrete external matchers, on a tool call
no rule matches. -/
theorem C7_witness :
    activeRules trivialMatchers
        { customRules := [], builtinToggles := defaultBuiltinToggles } =
      builtinRules.filter
        (fun r => (defaultBuiltinToggles.lookup r.name).getD true) ++ [] ∧
    Evaluate trivialMatchers
        { customRules := [], builtinToggles := defaultBuiltinToggles }
        "main" { name := "harmless", arguments := none, rawJSON := "" } =
      { action := "allow", rule := "", message := "" } :=
  ⟨C7_evaluate_first_match.2.1 trivialMatchers
      { customRules := [], builtinToggles := defaultBuiltinToggles }
      (by decide),
   C7_evaluate_first_match.2.2 trivialMatchers
      { customRules := [], builtinToggles := defaultBuiltinToggles }
      "main" { name := "harmless", arguments := none, rawJSON := "" }
      (by decide)⟩

/-- C8 counterexample: `loadRulesFromFile` performs no name validation,
so a custom rule with an empty name loads successfully; when it is the
first rule to match a tool call, Evaluate returns its decision with an
empty ruleName even though a rule in the active ruleset matched —
refuting the claim that a non-empty ruleName accompanies every match. -/
theorem C8_counterexample :
    loadEngine trivialMatchers
        [{ name := "", Match := { tool := ["mytool"] }, action := "block",
           message := "m", builtin := false }] none =
      Except.ok
        { customRules :=
            [{ name := "", Match := { tool := ["mytool"] },
               action := "block", message := "m", builtin := false }],
          builtinToggles := defaultBuiltinToggles } ∧
    (∃ r ∈ activeRules trivialMatchers
        { customRules :=
            [{ name := "", Match := { tool := ["mytool"] },
               action := "block", message := "m", builtin := false }],
          builtinToggles := defaultBuiltinToggles },
      matchesRule trivialMatchers r "main"
        { name := "mytool", arguments := none, rawJSON := "xyz" } = true) ∧
    (Evaluate trivialMatchers
        { customRules :=
            [{ name := "", Match := { tool := ["mytool"] },
               action := "block", message := "m", builtin := false }],
          builtinToggles := defaultBuiltinToggles }
        "main"
        { name := "mytool", arguments := none, rawJSON := "xyz" }).rule
      = "" ∧
    (Evaluate trivialMatchers
        { customRules :=
            [{ name := "", Match := { tool := ["mytool"] },
               action := "block", message := "m", builtin := false }],
          builtinToggles := defaultBuiltinToggles }
        "main"
        { name := "mytool", arguments := none, rawJSON := "xyz" }).action
      = "block" := by
  refine ⟨rfl, by decide, by decide, by decide⟩

/-- C8 amended: when every rule of the evaluated ruleset has a non-empty
name, the returned ruleName is empty exactly when no rule matched (the
default allow); every built-in catalogue rule has a non-empty name, and
AddRule rejects an empty name — but the file-load path accepts
empty-named custom rules, for which the guarantee fails. -/
theorem C8_amended :
    (∀ (M : ExternalMatchers) (rules : List Rule) (agentID : String)
        (tc : ToolCallE),
      (∀ r ∈ rules, r.name ≠ "") →
      (((evalRules M agentID tc rules).rule = "") ↔
        ∀ r ∈ rules, matchesRule M r agentID tc = false)) ∧
    (∀ r ∈ builtinRules, r.name ≠ "") ∧
    (∀ (M : ExternalMatchers) (e : EngineState) (r : Rule), r.name = "" →
      AddRule M e r = Except.error "rule must have a name") := by
  refine ⟨?_, by decide, ?_⟩
  · intro M rules agentID tc hnames
    induction rules with
    | nil => simp [evalRules]
    | cons r rest ih =>
      have hn := hnames r (by simp)
      have hrest : ∀ x ∈ rest, x.name ≠ "" :=
        fun x hx => hnames x (by simp [hx])
      by_cases hm : matchesRule M r agentID tc = true
      · simp [evalRules, hm, hn]
      · have hm' : matchesRule M r agentID tc = false := by
          revert hm; cases matchesRule M r agentID tc <;> simp
        simp [evalRules, hm', ih hrest]
  · intro M e r h
    simp [AddRule, h]

/-- C8 witness: the amended iff applied to a concrete one-rule set, and
AddRule rejecting a concrete empty-named rule. -/
theorem C8_witness :
    (((evalRules trivialMatchers "main"
          { name := "exec", arguments := none, rawJSON := "" }
          [{ name := "r1", Match := { tool := ["exec"] }, action := "block",
             message := "", builtin := false }]).rule = "") ↔
      ∀ r ∈ [{ name := "r1", Match := { tool := ["exec"] },
               action := "block", message := "", builtin := false }],
        matchesRule trivialMatchers r "main"
          { name := "exec", arguments := none, rawJSON := "" } = false) ∧
    AddRule trivialMatchers
        { customRules := [], builtinToggles := defaultBuiltinToggles }
        { name := "" } =
      Except.error "rule must have a name" :=
  ⟨C8_amended.1 trivialMatchers _ "main" _ (by decide),
   C8_amended.2.2 trivialMatchers
      { customRules := [], builtinToggles := defaultBuiltinToggles }
      { name := "" } rfl⟩

/-- C9 counterexample: RemoveRule drops every custom rule bearing the
name, so when a rule named "dup" already exists, AddRule of a second
"dup" followed by RemoveRule "dup" removes both — the resulting state
and active ruleset differ from the pre-add ones, refuting the claim as
stated for every engine state. -/
theorem C9_counterexample :
    AddRule trivialMatchers
        { customRules :=
            [{ name := "dup", Match := { tool := ["a"] }, action := "block",
               message := "", builtin := false }],
          builtinToggles := defaultBuiltinToggles }
        { name := "dup", Match := { tool := ["b"] }, action := "block",
          message := "", builtin := false } =
      Except.ok
        { customRules :=
            [{ name := "dup", Match := { tool := ["a"] }, action := "block",
               message := "", builtin := false },
             { name := "dup", Match := { tool := ["b"] }, action := "block",
               message := "", builtin := false }],
          builtinToggles := defaultBuiltinToggles } ∧
    RemoveRule
        { customRules :=
            [{ name := "dup", Match := { tool := ["a"] }, action := "block",
               message := "", builtin := false },
             { name := "dup", Match := { tool := ["b"] }, action := "block",
               message := "", builtin := false }],
          builtinToggles := defaultBuiltinToggles }
        "dup" =
      Except.ok
        { customRules := [], builtinToggles := defaultBuiltinToggles } ∧
    ({ customRules := [], builtinToggles := defaultBuiltinToggles }
        : EngineState) ≠
      { customRules :=
          [{ name := "dup", Match := { tool := ["a"] }, action := "block",
             message := "", builtin := false }],
        builtinToggles := defaultBuiltinToggles } ∧
    activeRules trivialMatchers
        { customRules := [], builtinToggles := defaultBuiltinToggles } ≠
      activeRules trivialMatchers
        { customRules :=
            [{ name := "dup", Match := { tool := ["a"] }, action := "block",
               message := "", builtin := false }],
          builtinToggles := defaultBuiltinToggles } := by
  refine ⟨rfl, rfl, by decide, by decide⟩

/-- C9 amended: AddRule(r) followed by RemoveRule(r.name) restores the
engine state — and hence the active ruleset — provided no pre-existing
custom rule already bears r's name (RemoveRule removes every rule with
the name, so a pre-existing duplicate would be removed too). -/
theorem C9_amended (M : ExternalMatchers) (e : EngineState) (r : Rule)
    (e' e'' : EngineState)
    (hfresh : ∀ c ∈ e.customRules, c.name ≠ r.name)
    (hadd : AddRule M e r = Except.ok e')
    (hrem : RemoveRule e' r.name = Except.ok e'') :
    e'' = e ∧ activeRules M e'' = activeRules M e := by
  rw [AddRule] at hadd
  by_cases hname : r.name = ""
  · rw [if_pos hname] at hadd
    exact absurd hadd (by simp)
  · rw [if_neg hname] at hadd
    set r' := if r.action = "" then { r with action := "block" } else r
      with hr'
    have hr'name : r'.name = r.name := by
      rw [hr']
      by_cases ha : r.action = "" <;> simp [ha]
    cases hc : compileRule M r' with
    | none =>
      simp only [hc] at hadd
      exact absurd hadd (by simp)
    | some rc =>
      simp only [hc] at hadd
      have hrc : rc = r' := by
        rw [compileRule] at hc
        by_cases hok : compileRuleOk M r' = true
        · rw [if_pos hok] at hc
          exact (Option.some.injEq _ _).mp hc.symm
        · rw [if_neg hok] at hc
          exact absurd hc (by simp)
      have he' : e' = { e with customRules := e.customRules ++ [rc] } := by
        have := hadd
        simp only [Except.ok.injEq] at this
        exact this.symm
      subst he'
      subst hrc
      rw [RemoveRule] at hrem
      have hany : ((e.customRules ++ [r']).any
          (fun x => x.name == r.name)) = true := by
        rw [List.any_append]
        simp [hr'name]
      rw [if_pos (by simpa using hany)] at hrem
      have hfilter : ((e.customRules ++ [r']).filter
          (fun x => x.name ≠ r.name)) = e.customRules := by
        rw [List.filter_append]
        have h1 : e.customRules.filter (fun x => x.name ≠ r.name) =
            e.customRules := by
          rw [List.filter_eq_self]
          intro a ha
          simpa using hfresh a ha
        have h2 : ([r'] : List Rule).filter (fun x => x.name ≠ r.name) =
            [] := by
          simp [List.filter_cons, hr'name]
        rw [h1, h2, List.append_nil]
      have he'' : e'' = e := by
        have := hrem
        simp only [Except.ok.injEq] at this
        rw [← this]
        obtain ⟨ecr, ebt⟩ := e
        simp only at hfilter ⊢
        rw [hfilter]
      exact ⟨he'', by rw [he'']⟩

/-- C9 witness: the amended law applied to a concrete engine holding one
custom rule named "other", adding and removing a rule named "new" (whose
empty action is defaulted to block on the way in). -/
theorem C9_witness :
    ({ customRules :=
         [{ name := "other", Match := { tool := ["t"] }, action := "block",
            message := "", builtin := false }],
       builtinToggles := defaultBuiltinToggles } : EngineState) =
      { customRules :=
          [{ name := "other", Match := { tool := ["t"] }, action := "block",
             message := "", builtin := false }],
        builtinToggles := defaultBuiltinToggles } ∧
    activeRules trivialMatchers
        { customRules :=
            [{ name := "other", Match := { tool := ["t"] },
               action := "block", message := "", builtin := false }],
          builtinToggles := defaultBuiltinToggles } =
      activeRules trivialMatchers
        { customRules :=
            [{ name := "other", Match := { tool := ["t"] },
               action := "block", message := "", builtin := false }],
          builtinToggles := defaultBuiltinToggles } :=
  C9_amended trivialMatchers
    { customRules :=
        [{ name := "other", Match := { tool := ["t"] }, action := "block",
           message := "", builtin := false }],
      builtinToggles := defaultBuiltinToggles }
    { name := "new", Match := { tool := ["x"] }, action := "",
      message := "", builtin := false }
    { customRules :=
        [{ name := "other", Match := { tool := ["t"] }, action := "block",
           message := "", builtin := false },
         { name := "new", Match := { tool := ["x"] }, action := "block",
           message := "", builtin := false }],
      builtinToggles := defaultBuiltinToggles }
    { customRules :=
        [{ name := "other", Match := { tool := ["t"] }, action := "block",
           message := "", builtin := false }],
      builtinToggles := defaultBuiltinToggles }
    (by decide) rfl rfl

/-- any over a conjunction with a negated second test equals the negated
all of the second test over the filtered list. -/
theorem any_and_not_eq_not_all_filter {α : Type} (p q : α → Bool) :
    ∀ l : List α, (l.any (fun b => p b && !(q b))) =
      !((l.filter p).all q) := by
  intro l
  induction l with
  | nil => rfl
  | cons x xs ih =>
    cases hp : p x <;> cases hq : q x <;>
      simp [List.any_cons, List.filter_cons, List.all_cons, hp, hq, ih]

/-- dropping the elements failing a test leaves nothing exactly when
every element passes it. -/
theorem filter_not_isEmpty_eq_all {α : Type} (q : α → Bool) :
    ∀ l : List α, ((l.filter (fun t => !(q t))).isEmpty) = l.all q := by
  intro l
  induction l with
  | nil => rfl
  | cons x xs ih =>
    cases hq : q x <;> simp [List.filter_cons, List.all_cons, hq, ih]

/-- C2 counterexample: an OpenAI Responses body with status in_progress
and two function calls of which only call_a is blocked — call_b remains
allowed, yet the rewrite changes the status field (to completed) instead
of preserving the original terminal value, refuting the claim for the
OpenAIResponses wire format. -/
theorem C2_counterexample :
    (∃ it ∈ demoRespBody.output,
      it.itemType = "function_call" ∧
      ¬ it.callID ∈ (demoBlockedA.map (fun t => t.id))) ∧
    (modifyOpenAIResponsesResponse demoRespBody demoBlockedA
        demoDecisions).status = "completed" ∧
    (modifyOpenAIResponsesResponse demoRespBody demoBlockedA
        demoDecisions).status ≠ demoRespBody.status := by
  refine ⟨by decide, by decide, by decide⟩

/-- C2 amended: for AnthropicMessage the stop_reason becomes end_turn
exactly when every tool_use block of the body is blocked and is preserved
otherwise; for OpenAIChat the finish_reason of choice 0 becomes stop
exactly when every entry of the message's tool_calls is blocked (absence
of the array counting as vacuously all-blocked) and is preserved
otherwise; for OpenAIResponses the status is set to completed
unconditionally, whatever the blocked/allowed mix. -/
theorem C2_amended :
    (∀ (body : AnthropicBody) (blocked : List ToolCallM)
        (dec : List Decision), blocked ≠ [] →
      (modifyAnthropicResponse body blocked dec).stopReason =
        (if (toolUses body.content).all
            (fun b => b.id ∈ blocked.map (fun t => t.id)) then "end_turn"
         else body.stopReason)) ∧
    (∀ (body : OpenAIBody) (blocked : List ToolCallM) (dec : List Decision)
        (c : OAIChoiceB) (rest : List OAIChoiceB) (msg : OAIMessage),
      blocked ≠ [] → body.choices = c :: rest → c.message = some msg →
      ((modifyOpenAIResponse body blocked dec).choices.head?).map
          (fun ch => ch.finishReason) =
        some (if (msg.toolCalls.getD []).all
            (fun t => t.id ∈ blocked.map (fun t => t.id)) then "stop"
          else c.finishReason)) ∧
    (∀ (body : ResponsesBody) (blocked : List ToolCallM)
        (dec : List Decision), blocked ≠ [] →
      (modifyOpenAIResponsesResponse body blocked dec).status =
        "completed") := by
  refine ⟨?_, ?_, ?_⟩
  · intro body blocked dec _
    have hkey := any_and_not_eq_not_all_filter
      (fun b : ABlock => b.btype == "tool_use")
      (fun b : ABlock => decide (b.id ∈ blocked.map (fun t => t.id)))
      body.content
    rw [modifyAnthropicResponse]
    simp only [toolUses] at hkey ⊢
    rw [hkey]
    by_cases hall : ((body.content.filter
        (fun b => b.btype == "tool_use")).all
        (fun b => decide (b.id ∈ blocked.map (fun t => t.id)))) = true
    · simp only [hall]
      simp
    · have hall' : ((body.content.filter
          (fun b => b.btype == "tool_use")).all
          (fun b => decide (b.id ∈ blocked.map (fun t => t.id)))) = false := by
        revert hall
        cases (body.content.filter (fun b => b.btype == "tool_use")).all
          (fun b => decide (b.id ∈ blocked.map (fun t => t.id))) <;> simp
      simp only [hall']
      simp
  · intro body blocked dec c rest msg _ hch hmsg
    obtain ⟨choices⟩ := body
    simp only at hch
    subst hch
    rw [modifyOpenAIResponse]
    simp only [hmsg]
    cases htc : msg.toolCalls with
    | none =>
      simp [htc]
    | some tcs =>
      have hkey := filter_not_isEmpty_eq_all
        (fun t : OAITool => decide (t.id ∈ blocked.map (fun t => t.id)))
        tcs
      simp only [htc, Option.getD_some, List.head?_cons, Option.map_some']
      simp only [hkey]
      by_cases hall : (tcs.all
          (fun t => decide (t.id ∈ blocked.map (fun t => t.id)))) = true
      · simp only [hall]
        simp
      · have hall' : (tcs.all
            (fun t => decide (t.id ∈ blocked.map (fun t => t.id)))) = false := by
          revert hall
          cases tcs.all (fun t => decide (t.id ∈ blocked.map (fun t => t.id)))
            <;> simp
        simp only [hall']
        simp
  · intro body blocked dec _
    rfl

/-- C2 witness: the amended statement applied to a concrete Anthropic
body whose only tool_use is blocked and to the concrete Responses
body. -/
theorem C2_witness :
    (modifyAnthropicResponse demoAnthBody
        [{ id := "toolu_1", name := "exec", index := 1 }]
        demoDecisions).stopReason =
      (if (toolUses demoAnthBody.content).all
          (fun b => b.id ∈
            ([{ id := "toolu_1", name := "exec", index := 1 }]
              : List ToolCallM).map (fun t => t.id)) then "end_turn"
       else demoAnthBody.stopReason) ∧
    (modifyOpenAIResponsesResponse demoRespBody demoBlockedA
        demoDecisions).status = "completed" :=
  ⟨C2_amended.1 demoAnthBody
      [{ id := "toolu_1", name := "exec", index := 1 }] demoDecisions
      (by decide),
   C2_amended.2.2 demoRespBody demoBlockedA demoDecisions (by decide)⟩

/-- a filter and its complement split a list's length. -/
theorem length_filter_add_length_filter_not {α : Type} (p : α → Bool) :
    ∀ l : List α,
      (l.filter p).length + (l.filter (fun a => !(p a))).length =
        l.length := by
  intro l
  induction l with
  | nil => rfl
  | cons x xs ih =>
    cases hp : p x <;> simp [List.filter_cons, hp] <;> omega

/-- filtering after a map filters the preimages. -/
theorem length_filter_map_comp {α β : Type} (f : α → β) (p : β → Bool) :
    ∀ l : List α,
      ((l.map f).filter p).length =
        (l.filter (fun a => p (f a))).length := by
  intro l
  induction l with
  | nil => rfl
  | cons x xs ih =>
    cases hp : p (f x) <;> simp [List.filter_cons, hp, ih]

/-- the tool_use blocks of a rewritten Anthropic body are those of the
input body whose id is not blocked: injected notice blocks are text, and
the rewrite strips exactly the blocked tool_use blocks. -/
theorem modifyAnth_toolUses (body : AnthropicBody)
    (blocked : List ToolCallM) (dec : List Decision) :
    toolUses (modifyAnthropicResponse body blocked dec).content =
      (toolUses body.content).filter
        (fun b => !(decide (b.id ∈ blocked.map (fun t => t.id)))) := by
  rw [modifyAnthropicResponse, toolUses, toolUses]
  simp only [List.filter_append]
  have hnotice : ((dec.map (fun _ => ({ btype := "text" } : ABlock))).filter
      (fun b => b.btype == "tool_use")) = [] := by
    rw [List.filter_eq_nil_iff]
    intro a ha
    rw [List.mem_map] at ha
    obtain ⟨d, _, rfl⟩ := ha
    simp
  rw [hnotice, List.append_nil, List.filter_filter, List.filter_filter]
  apply List.filter_congr
  intro b _
  cases hbt : b.btype == "tool_use" <;>
    cases hm : decide (b.id ∈ blocked.map (fun t => t.id)) <;>
      simp [hbt, hm]

/-- per-event: the rewritten OpenAI stream event carries exactly the
unblocked fragments of choice 0. -/
theorem modifyOAIEvent_fragsOf (blockedIdx : List Int) (ab : Bool)
    (e : OAIEvent) :
    fragsOf (modifyOAIEvent blockedIdx ab e) =
      (fragsOf e).filter (fun f => !(decide (f.index ∈ blockedIdx))) := by
  cases e with
  | done => rfl
  | rawEvt => rfl
  | chunk choices =>
    cases choices with
    | nil => rfl
    | cons c rest =>
      cases hd : c.delta with
      | none => simp [modifyOAIEvent, fragsOf, hd]
      | some d =>
        cases htc : d.toolCalls with
        | none => simp [modifyOAIEvent, fragsOf, hd, htc]
        | some tcs =>
          by_cases hk : (tcs.filter
              (fun t => !(decide (t.index ∈ blockedIdx)))).isEmpty = true
          · have hnil : tcs.filter
                (fun t => !(decide (t.index ∈ blockedIdx))) = [] := by
              rwa [List.isEmpty_iff] at hk
            simp [modifyOAIEvent, fragsOf, hd, htc, hk, hnil]
          · have hk' : (tcs.filter
                (fun t => !(decide (t.index ∈ blockedIdx)))).isEmpty
                = false := by
              revert hk
              cases (tcs.filter
                (fun t => !(decide (t.index ∈ blockedIdx)))).isEmpty <;> simp
            simp [modifyOAIEvent, fragsOf, hd, htc, hk']

/-- mapping the per-event rewrite over a stream filters the fragment
join. -/
theorem mapModify_fragsOf (blockedIdx : List Int) (ab : Bool) :
    ∀ (events : List OAIEvent),
      ((events.map (modifyOAIEvent blockedIdx ab)).flatMap fragsOf) =
        (events.flatMap fragsOf).filter
          (fun f => !(decide (f.index ∈ blockedIdx))) := by
  intro events
  induction events with
  | nil => rfl
  | cons e rest ih =>
    simp only [List.map_cons, List.flatMap_cons, List.filter_append]
    rw [modifyOAIEvent_fragsOf, ih]

/-- the full OpenAI stream rewrite (notice insertion included) filters
the fragment join: the notice chunk and the done sentinel carry no
fragments. -/
theorem buildModifiedOpenAIStream_frags (events : List OAIEvent)
    (blocked : List ToolCallM) (msgs : List String) :
    ((buildModifiedOpenAIStream events blocked msgs).flatMap fragsOf) =
      (events.flatMap fragsOf).filter
        (fun f => !(decide (f.index ∈ blocked.map (fun t => t.index)))) := by
  rw [buildModifiedOpenAIStream]
  by_cases hm : msgs.isEmpty = true
  · simp only [hm, if_true]
    exact mapModify_fragsOf _ _ events
  · have hm' : msgs.isEmpty = false := by
      revert hm; cases msgs.isEmpty <;> simp
    simp only [hm', Bool.false_eq_true, if_false]
    have hmod := mapModify_fragsOf
      (blocked.map (fun t => t.index))
      (allOpenAIToolsBlocked events (blocked.map (fun t => t.index))) events
    set modified := events.map
      (modifyOAIEvent (blocked.map (fun t => t.index))
        (allOpenAIToolsBlocked events (blocked.map (fun t => t.index))))
      with hmodified
    cases hlast : modified.getLast? with
    | none =>
      simp only [hlast]
      rw [List.flatMap_append, ← hmod]
      simp [fragsOf, buildOpenAIContentDelta]
    | some lastE =>
      cases lastE with
      | done =>
        simp only [hlast]
        have hne : modified ≠ [] := by
          intro h
          rw [h] at hlast
          simp at hlast
        have hsplit : modified.dropLast ++ [modified.getLast hne] =
            modified := List.dropLast_append_getLast hne
        have hlastv : modified.getLast hne = .done := by
          have := List.getLast?_eq_getLast modified hne
          rw [hlast] at this
          exact (Option.some.injEq _ _).mp this.symm
        rw [hlastv] at hsplit
        calc ((modified.dropLast ++
                [buildOpenAIContentDelta (buildBlockNoticeText msgs),
                 OAIEvent.done]).flatMap fragsOf)
            = modified.dropLast.flatMap fragsOf := by
              rw [List.flatMap_append]
              simp [fragsOf, buildOpenAIContentDelta]
          _ = (modified.dropLast ++ [OAIEvent.done]).flatMap fragsOf := by
              rw [List.flatMap_append]
              simp [fragsOf]
          _ = modified.flatMap fragsOf := by rw [hsplit]
          _ = _ := hmod
      | chunk choices =>
        simp only [hlast]
        rw [List.flatMap_append, ← hmod]
        simp [fragsOf, buildOpenAIContentDelta]
      | rawEvt =>
        simp only [hlast]
        rw [List.flatMap_append, ← hmod]
        simp [fragsOf, buildOpenAIContentDelta]

/-- the emitted content_block_start infos of the rewritten Anthropic
stream are the per-event contributions, independently of the
skip-tracker state. -/
theorem anthStreamGo_startInfos (blockedIdx : List Int)
    (m : List (Int × Nat)) (k : Nat) (ab : Bool) (msgs : List String) :
    ∀ (evs : List AnthEvent) (skip : Int),
      ((anthStreamGo blockedIdx m k ab msgs evs skip).filterMap
          anthStartInfo) =
        evs.flatMap (startContrib blockedIdx m k msgs) := by
  intro evs
  induction evs with
  | nil => intro skip; rfl
  | cons e rest ih =>
    intro skip
    cases e with
    | messageStart =>
      simp [anthStreamGo, List.filterMap_cons, anthStartInfo, startContrib,
        ih]
    | blockStart i t id =>
      by_cases hbl : (t == "tool_use" && decide (i ∈ blockedIdx)) = true
      · simp [anthStreamGo, hbl, startContrib, ih]
      · have hbl' : (t == "tool_use" && decide (i ∈ blockedIdx)) = false := by
          revert hbl
          cases (t == "tool_use" && decide (i ∈ blockedIdx)) <;> simp
        cases halk : alookup m i with
        | none =>
          simp [anthStreamGo, hbl', reindexEvent, halk, anthStartInfo,
            startContrib, ih]
        | some j =>
          simp [anthStreamGo, hbl', reindexEvent, halk, setEventIndex,
            anthStartInfo, startContrib, ih]
    | blockDelta i =>
      by_cases hsk : i = skip
      · simp [anthStreamGo, hsk, startContrib, ih]
      · cases halk : alookup m i with
        | none =>
          simp [anthStreamGo, hsk, reindexEvent, halk, anthStartInfo,
            startContrib, ih]
        | some j =>
          simp [anthStreamGo, hsk, reindexEvent, halk, setEventIndex,
            anthStartInfo, startContrib, ih]
    | blockStop i =>
      by_cases hsk : i = skip
      · simp [anthStreamGo, hsk, startContrib, ih]
      · cases halk : alookup m i with
        | none =>
          simp [anthStreamGo, hsk, reindexEvent, halk, anthStartInfo,
            startContrib, ih]
        | some j =>
          simp [anthStreamGo, hsk, reindexEvent, halk, setEventIndex,
            anthStartInfo, startContrib, ih]
    | messageDelta sr =>
      cases ab <;> simp [anthStreamGo, anthStartInfo, startContrib, ih]
    | messageStop =>
      by_cases hmsg : msgs.isEmpty = true
      · simp [anthStreamGo, hmsg, anthStartInfo, startContrib, ih]
      · have hmsg' : msgs.isEmpty = false := by
          revert hmsg; cases msgs.isEmpty <;> simp
        simp [anthStreamGo, hmsg', buildTextBlockEvents, anthStartInfo,
          startContrib, ih]
    | passthrough =>
      simp [anthStreamGo, anthStartInfo, startContrib, ih]

/-- association lookup distributes over append. -/
theorem alookup_append (m1 m2 : List (Int × Nat)) (key : Int) :
    alookup (m1 ++ m2) key =
      match alookup m1 key with
      | some v => some v
      | none => alookup m2 key := by
  induction m1 with
  | nil => simp [alookup]
  | cons q m1 ih =>
    by_cases hq : (q.1 == key) = true
    · simp [alookup, List.find?, hq]
    · have hq' : (q.1 == key) = false := by
        revert hq; cases q.1 == key <;> simp
      simp only [List.cons_append, alookup, List.find?, hq'] at ih ⊢
      exact ih

/-- dropping one key's entries leaves other keys' lookups unchanged. -/
theorem alookup_filter_ne (m : List (Int × Nat)) (i key : Int)
    (h : key ≠ i) :
    alookup (m.filter (fun p => !(p.1 == i))) key = alookup m key := by
  induction m with
  | nil => rfl
  | cons q m ih =>
    by_cases hqi : (q.1 == i) = true
    · have hq1 : q.1 = i := by simpa using hqi
      have hqk : (q.1 == key) = false := by
        rw [hq1]
        cases hb : i == key
        · rfl
        · exact absurd ((by simpa using hb : i = key)).symm h
      simp only [List.filter_cons, hqi, Bool.not_true, Bool.false_eq_true,
        if_false]
      rw [ih]
      simp [alookup, List.find?, hqk]
    · have hqi' : (q.1 == i) = false := by
        revert hqi; cases q.1 == i <;> simp
      simp only [List.filter_cons, hqi', Bool.not_false, if_true]
      by_cases hqk : (q.1 == key) = true
      · simp [alookup, List.find?, hqk]
      · have hqk' : (q.1 == key) = false := by
          revert hqk; cases q.1 == key <;> simp
        simp only [alookup, List.find?, hqk'] at ih ⊢
        exact ih

/-- no entry of the dropped key survives its filter. -/
theorem alookup_filter_self (m : List (Int × Nat)) (i : Int) :
    alookup (m.filter (fun p => !(p.1 == i))) i = none := by
  induction m with
  | nil => rfl
  | cons q m ih =>
    by_cases hqi : (q.1 == i) = true
    · simp only [List.filter_cons, hqi, Bool.not_true, Bool.false_eq_true,
        if_false]
      exact ih
    · have hqi' : (q.1 == i) = false := by
        revert hqi; cases q.1 == i <;> simp
      simp only [List.filter_cons, hqi', Bool.not_false, if_true]
      simp only [alookup, List.find?, hqi'] at ih ⊢
      exact ih

/-- map insertion makes the inserted binding visible. -/
theorem alookup_mapInsert_self (m : List (Int × Nat)) (i : Int) (v : Nat) :
    alookup (mapInsert m i v) i = some v := by
  rw [mapInsert, alookup_append, alookup_filter_self]
  simp [alookup, List.find?]

/-- map insertion leaves other keys' lookups unchanged. -/
theorem alookup_mapInsert_ne (m : List (Int × Nat)) (i : Int) (v : Nat)
    (key : Int) (h : key ≠ i) :
    alookup (mapInsert m i v) key = alookup m key := by
  rw [mapInsert, alookup_append, alookup_filter_ne m i key h]
  have hik : (i == key) = false := by
    cases hb : i == key
    · rfl
    · exact absurd ((by simpa using hb : i = key)).symm h
  cases alookup m key <;> simp [alookup, List.find?, hik]

/-- an event the first pass skips contributes nothing to the kept-start
list. -/
theorem keptFull_cons_none (bIdx : List Int) (e : AnthEvent)
    (rest : List AnthEvent) (h : keptStart bIdx e = none) :
    keptFull bIdx (e :: rest) = keptFull bIdx rest := by
  cases e with
  | blockStart i t id =>
    by_cases hc : (t == "tool_use" && decide (i ∈ bIdx)) = true
    · obtain ⟨ht, hi⟩ : t = "tool_use" ∧ i ∈ bIdx := by simpa using hc
      simp [keptFull, List.filterMap_cons, ht, hi]
    · have hc' : (t == "tool_use" && decide (i ∈ bIdx)) = false := by
        revert hc; cases (t == "tool_use" && decide (i ∈ bIdx)) <;> simp
      exfalso
      rw [keptStart, if_neg (by simp [hc'])] at h
      exact absurd h (by simp)
  | messageStart => simp [keptFull, List.filterMap_cons]
  | blockDelta i => simp [keptFull, List.filterMap_cons]
  | blockStop i => simp [keptFull, List.filterMap_cons]
  | messageDelta sr => simp [keptFull, List.filterMap_cons]
  | messageStop => simp [keptFull, List.filterMap_cons]
  | passthrough => simp [keptFull, List.filterMap_cons]

/-- an event the first pass keeps is a non-blocked content_block_start
and heads the kept-start list. -/
theorem keptStart_some_decomp (bIdx : List Int) (e : AnthEvent) (i : Int)
    (h : keptStart bIdx e = some i) :
    ∃ t id, e = .blockStart i t id ∧
      (t == "tool_use" && decide (i ∈ bIdx)) = false ∧
      ∀ rest, keptFull bIdx (e :: rest) =
        (i, t, id) :: keptFull bIdx rest := by
  cases e with
  | blockStart i' t id =>
    by_cases hc : (t == "tool_use" && decide (i' ∈ bIdx)) = true
    · exfalso
      rw [keptStart, if_pos (by simp [hc])] at h
      exact absurd h (by simp)
    · have hc' : (t == "tool_use" && decide (i' ∈ bIdx)) = false := by
        revert hc; cases (t == "tool_use" && decide (i' ∈ bIdx)) <;> simp
      rw [keptStart, if_neg (by simp [hc'])] at h
      have hii : i' = i := by simpa using h
      subst hii
      refine ⟨t, id, rfl, hc', fun rest => ?_⟩
      have hcN : ¬(t = "tool_use" ∧ i' ∈ bIdx) := by simpa using hc'
      simp [keptFull, List.filterMap_cons, hcN]
  | messageStart => simp [keptStart] at h
  | blockDelta i' => simp [keptStart] at h
  | blockStop i' => simp [keptStart] at h
  | messageDelta sr => simp [keptStart] at h
  | messageStop => simp [keptStart] at h
  | passthrough => simp [keptStart] at h

/-- the first pass gives the j-th kept start the new index j (relative to
the running counter), returns the count of kept starts as the notice
slot, and preserves bindings for keys that are not kept starts. -/
theorem buildIndexMap_spec (bIdx : List Int) :
    ∀ (evs : List AnthEvent) (m0 : List (Int × Nat)) (n0 : Nat),
      ((keptFull bIdx evs).map (fun p => p.1)).Nodup →
      (∀ p ∈ m0, ¬ p.1 ∈ (keptFull bIdx evs).map (fun p => p.1)) →
      (∀ j p, (keptFull bIdx evs)[j]? = some p →
        alookup (buildIndexMap bIdx evs m0 n0).1 p.1 = some (n0 + j)) ∧
      (buildIndexMap bIdx evs m0 n0).2 =
        n0 + (keptFull bIdx evs).length ∧
      (∀ key v, alookup m0 key = some v →
        ¬ key ∈ (keptFull bIdx evs).map (fun p => p.1) →
        alookup (buildIndexMap bIdx evs m0 n0).1 key = some v) := by
  intro evs
  induction evs with
  | nil =>
    intro m0 n0 _ _
    refine ⟨?_, ?_, ?_⟩
    · intro j p hp
      simp [keptFull] at hp
    · simp [buildIndexMap, keptFull]
    · intro key v hv _
      simpa [buildIndexMap] using hv
  | cons e rest ih =>
    intro m0 n0 hnd hfresh
    cases hks : keptStart bIdx e with
    | none =>
      have hkf := keptFull_cons_none bIdx e rest hks
      rw [hkf] at hnd hfresh
      have IH := ih m0 n0 hnd hfresh
      refine ⟨?_, ?_, ?_⟩
      · intro j p hp
        rw [hkf] at hp
        simpa [buildIndexMap, hks] using IH.1 j p hp
      · rw [hkf]
        simpa [buildIndexMap, hks] using IH.2.1
      · intro key v hv hknot
        rw [hkf] at hknot
        simpa [buildIndexMap, hks] using IH.2.2 key v hv hknot
    | some i =>
      obtain ⟨t, id, he, hcond, hkf⟩ := keptStart_some_decomp bIdx e i hks
      have hcons := hkf rest
      rw [hcons] at hnd hfresh
      have hiNot : ¬ i ∈ (keptFull bIdx rest).map (fun p => p.1) :=
        (List.nodup_cons.mp (by simpa using hnd)).1
      have hndR : ((keptFull bIdx rest).map (fun p => p.1)).Nodup :=
        (List.nodup_cons.mp (by simpa using hnd)).2
      have hfreshR : ∀ p ∈ mapInsert m0 i n0,
          ¬ p.1 ∈ (keptFull bIdx rest).map (fun p => p.1) := by
        intro p hp
        rw [mapInsert] at hp
        rcases List.mem_append.mp hp with hp1 | hp2
        · have hpm0 := List.mem_of_mem_filter hp1
          have := hfresh p hpm0
          intro hmem
          exact this (by simp [hmem])
        · have hpeq : p = (i, n0) := by simpa using hp2
          rw [hpeq]
          exact hiNot
      have IH := ih (mapInsert m0 i n0) (n0 + 1) hndR hfreshR
      refine ⟨?_, ?_, ?_⟩
      · intro j p hp
        rw [hcons] at hp
        cases j with
        | zero =>
          have hpe : p = (i, t, id) := by
            have := hp
            simp at this
            exact this.symm
          have hpres := IH.2.2 i n0 (alookup_mapInsert_self m0 i n0) hiNot
          rw [hpe]
          simpa [buildIndexMap, hks] using hpres
        | succ j' =>
          have hp' : (keptFull bIdx rest)[j']? = some p := by simpa using hp
          have hstep := IH.1 j' p hp'
          have harith : n0 + 1 + j' = n0 + (j' + 1) := by omega
          rw [harith] at hstep
          simpa [buildIndexMap, hks] using hstep
      · rw [hcons]
        have hcount := IH.2.1
        simp only [buildIndexMap, hks, List.length_cons]
        rw [hcount]
        omega
      · intro key v hv hknot
        rw [hcons] at hknot
        have hki : key ≠ i := by
          intro hkey
          exact hknot (by simp [hkey])
        have hkR : ¬ key ∈ (keptFull bIdx rest).map (fun p => p.1) := by
          intro hmem
          exact hknot (by simp [hmem])
        have := IH.2.2 key v
          (by rw [alookup_mapInsert_ne m0 i n0 key hki]; exact hv) hkR
        simpa [buildIndexMap, hks] using this

/-- filtered to the indices below the notice slot, the contributions of
the rewritten stream are exactly the kept starts renumbered
consecutively from the running base; every contribution at the notice
slot is an injected text block. -/
theorem startContrib_filter (bIdx : List Int) (m : List (Int × Nat))
    (k : Nat) (msgs : List String) :
    ∀ (evs : List AnthEvent) (base : Nat),
      (∀ j p, (keptFull bIdx evs)[j]? = some p →
        alookup m p.1 = some (base + j)) →
      base + (keptFull bIdx evs).length ≤ k →
      (((evs.flatMap (startContrib bIdx m k msgs)).filter
          (fun q => q.1 ≠ (k : Int))) =
        ((keptFull bIdx evs).enumFrom base).map
          (fun q => (((q.1 : Nat) : Int), q.2.2))) ∧
      (∀ q ∈ evs.flatMap (startContrib bIdx m k msgs),
        q.1 = (k : Int) → q.2.1 = "text") := by
  intro evs
  induction evs with
  | nil =>
    intro base _ _
    refine ⟨rfl, ?_⟩
    intro q hq
    simp at hq
  | cons e rest ih =>
    intro base hm hk
    cases e with
    | blockStart i t id =>
      by_cases hc : (t == "tool_use" && decide (i ∈ bIdx)) = true
      · obtain ⟨ht, hi⟩ : t = "tool_use" ∧ i ∈ bIdx := by simpa using hc
        have hksn : keptStart bIdx (.blockStart i t id) = none := by
          simp [keptStart, ht, hi]
        have hkf := keptFull_cons_none bIdx _ rest hksn
        rw [hkf] at hm hk
        have IH := ih base hm hk
        have hcontrib : startContrib bIdx m k msgs (.blockStart i t id)
            = [] := by
          simp [startContrib, ht, hi]
        refine ⟨?_, ?_⟩
        · rw [List.flatMap_cons, hcontrib, List.nil_append, hkf]
          exact IH.1
        · intro q hq hqk
          rw [List.flatMap_cons, hcontrib, List.nil_append] at hq
          exact IH.2 q hq hqk
      · have hc' : (t == "tool_use" && decide (i ∈ bIdx)) = false := by
          revert hc; cases (t == "tool_use" && decide (i ∈ bIdx)) <;> simp
        have hcN : ¬(t = "tool_use" ∧ i ∈ bIdx) := by simpa using hc'
        have hkf : keptFull bIdx (.blockStart i t id :: rest) =
            (i, t, id) :: keptFull bIdx rest := by
          simp [keptFull, List.filterMap_cons, hcN]
        rw [hkf] at hm hk
        have hbase : alookup m i = some base := by
          have := hm 0 (i, t, id) (by simp)
          simpa using this
        have hm' : ∀ j p, (keptFull bIdx rest)[j]? = some p →
            alookup m p.1 = some (base + 1 + j) := by
          intro j p hp
          have := hm (j + 1) p (by simpa using hp)
          have harith : base + (j + 1) = base + 1 + j := by omega
          rwa [harith] at this
        have hk' : base + 1 + (keptFull bIdx rest).length ≤ k := by
          simp only [List.length_cons] at hk
          omega
        have IH := ih (base + 1) hm' hk'
        have hbk : base < k := by
          simp only [List.length_cons] at hk
          omega
        have hbkInt : ((base : Nat) : Int) ≠ ((k : Nat) : Int) := by
          intro hEq
          have : base = k := by exact_mod_cast hEq
          omega
        have hcontrib : startContrib bIdx m k msgs (.blockStart i t id) =
            [(((base : Nat) : Int), t, id)] := by
          simp [startContrib, hc', hbase]
        refine ⟨?_, ?_⟩
        · rw [List.flatMap_cons, hcontrib, List.filter_append, hkf,
            List.enumFrom_cons]
          have hkeep : ([(((base : Nat) : Int), t, id)].filter
              (fun q => q.1 ≠ (k : Int))) =
              [(((base : Nat) : Int), t, id)] := by
            simp [hbkInt]
          rw [hkeep, IH.1, List.map_cons]
          rfl
        · intro q hq hqk
          rw [List.flatMap_cons, hcontrib] at hq
          rcases List.mem_append.mp hq with hq1 | hq2
          · have hqe : q = (((base : Nat) : Int), t, id) := by
              simpa using hq1
            rw [hqe] at hqk
            exact absurd hqk hbkInt
          · exact IH.2 q hq2 hqk
    | messageStart =>
      have hkf := keptFull_cons_none bIdx .messageStart rest
        (by simp [keptStart])
      rw [hkf] at hm hk
      have IH := ih base hm hk
      refine ⟨?_, ?_⟩
      · rw [List.flatMap_cons, show startContrib bIdx m k msgs .messageStart
            = [] by simp [startContrib], List.nil_append, hkf]
        exact IH.1
      · intro q hq hqk
        rw [List.flatMap_cons, show startContrib bIdx m k msgs .messageStart
            = [] by simp [startContrib], List.nil_append] at hq
        exact IH.2 q hq hqk
    | blockDelta i =>
      have hkf := keptFull_cons_none bIdx (.blockDelta i) rest
        (by simp [keptStart])
      rw [hkf] at hm hk
      have IH := ih base hm hk
      refine ⟨?_, ?_⟩
      · rw [List.flatMap_cons, show startContrib bIdx m k msgs
            (.blockDelta i) = [] by simp [startContrib], List.nil_append, hkf]
        exact IH.1
      · intro q hq hqk
        rw [List.flatMap_cons, show startContrib bIdx m k msgs
            (.blockDelta i) = [] by simp [startContrib], List.nil_append] at hq
        exact IH.2 q hq hqk
    | blockStop i =>
      have hkf := keptFull_cons_none bIdx (.blockStop i) rest
        (by simp [keptStart])
      rw [hkf] at hm hk
      have IH := ih base hm hk
      refine ⟨?_, ?_⟩
      · rw [List.flatMap_cons, show startContrib bIdx m k msgs
            (.blockStop i) = [] by simp [startContrib], List.nil_append, hkf]
        exact IH.1
      · intro q hq hqk
        rw [List.flatMap_cons, show startContrib bIdx m k msgs
            (.blockStop i) = [] by simp [startContrib], List.nil_append] at hq
        exact IH.2 q hq hqk
    | messageDelta sr =>
      have hkf := keptFull_cons_none bIdx (.messageDelta sr) rest
        (by simp [keptStart])
      rw [hkf] at hm hk
      have IH := ih base hm hk
      refine ⟨?_, ?_⟩
      · rw [List.flatMap_cons, show startContrib bIdx m k msgs
            (.messageDelta sr) = [] by simp [startContrib], List.nil_append, hkf]
        exact IH.1
      · intro q hq hqk
        rw [List.flatMap_cons, show startContrib bIdx m k msgs
            (.messageDelta sr) = [] by simp [startContrib], List.nil_append] at hq
        exact IH.2 q hq hqk
    | passthrough =>
      have hkf := keptFull_cons_none bIdx .passthrough rest
        (by simp [keptStart])
      rw [hkf] at hm hk
      have IH := ih base hm hk
      refine ⟨?_, ?_⟩
      · rw [List.flatMap_cons, show startContrib bIdx m k msgs .passthrough
            = [] by simp [startContrib], List.nil_append, hkf]
        exact IH.1
      · intro q hq hqk
        rw [List.flatMap_cons, show startContrib bIdx m k msgs .passthrough
            = [] by simp [startContrib], List.nil_append] at hq
        exact IH.2 q hq hqk
    | messageStop =>
      have hkf := keptFull_cons_none bIdx .messageStop rest
        (by simp [keptStart])
      rw [hkf] at hm hk
      have IH := ih base hm hk
      by_cases hmsg : msgs.isEmpty = true
      · have hcontrib : startContrib bIdx m k msgs .messageStop = [] := by
          simp [startContrib, hmsg]
        refine ⟨?_, ?_⟩
        · rw [List.flatMap_cons, hcontrib, List.nil_append, hkf]
          exact IH.1
        · intro q hq hqk
          rw [List.flatMap_cons, hcontrib, List.nil_append] at hq
          exact IH.2 q hq hqk
      · have hmsg' : msgs.isEmpty = false := by
          revert hmsg; cases msgs.isEmpty <;> simp
        have hcontrib : startContrib bIdx m k msgs .messageStop =
            [(((k : Nat) : Int), "text", "")] := by
          simp [startContrib, hmsg']
        refine ⟨?_, ?_⟩
        · rw [List.flatMap_cons, hcontrib, List.filter_append, hkf]
          have hdrop : ([(((k : Nat) : Int), "text", "")].filter
              (fun q => q.1 ≠ (k : Int))) = [] := by
            simp
          rw [hdrop, List.nil_append]
          exact IH.1
        · intro q hq hqk
          rw [List.flatMap_cons, hcontrib] at hq
          rcases List.mem_append.mp hq with hq1 | hq2
          · have hqe : q = (((k : Nat) : Int), "text", "") := by
              simpa using hq1
            rw [hqe]
          · exact IH.2 q hq2 hqk

/-- C3 counterexample: an OpenAI chat stream carrying tool-call fragments
at indexes 0 and 1, with the index-0 invocation blocked; the rewritten
stream retains the surviving fragment under its original index 1 instead
of renumbering it to 0, so the remaining per-item indices are not the
contiguous range 0..k-1. -/
theorem C3_counterexample :
    seenToolIndexes (buildModifiedOpenAIStream demoOAIEvents demoBlockedA
        []) = [1] ∧
    ((1 : Int) :: []) ≠ (List.range 1).map (fun n => ((n : Nat) : Int)) := by
  refine ⟨by decide, by decide⟩

/-- C3 amended: the single-body Anthropic rewrite keeps exactly the
unblocked tool_use blocks (and, when the blocked ids are distinct and
all present among distinct body ids, the tool_use count drops by exactly
the size of the blocked set); the Anthropic stream rewrite removes the
blocked blocks and renumbers the kept content blocks to the contiguous
range 0..k-1 in order (the only other emitted start index is the notice
slot k, always a text block); the OpenAI chat stream rewrite removes
exactly the blocked fragments from every chunk but leaves the surviving
fragments' indices unchanged (no renumbering pass exists on that
path). -/
theorem C3_amended :
    (∀ (body : AnthropicBody) (blocked : List ToolCallM)
        (dec : List Decision),
      toolUses (modifyAnthropicResponse body blocked dec).content =
        (toolUses body.content).filter
          (fun b => !(decide (b.id ∈ blocked.map (fun t => t.id))))) ∧
    (∀ (body : AnthropicBody) (blocked : List ToolCallM)
        (dec : List Decision),
      ((toolUses body.content).map (fun b => b.id)).Nodup →
      (blocked.map (fun t => t.id)).Nodup →
      (∀ t ∈ blocked, t.id ∈ (toolUses body.content).map (fun b => b.id)) →
      (toolUses (modifyAnthropicResponse body blocked dec).content).length =
        (toolUses body.content).length - blocked.length) ∧
    (∀ (events : List AnthEvent) (blocked : List ToolCallM)
        (msgs : List String),
      ((keptFull (blocked.map (fun t => t.index)) events).map
          (fun p => p.1)).Nodup →
      ((((buildModifiedAnthropicStream events blocked msgs).filterMap
          anthStartInfo).filter
          (fun q => q.1 ≠
            (((keptFull (blocked.map (fun t => t.index)) events).length
              : Nat) : Int))) =
        ((keptFull (blocked.map (fun t => t.index)) events).enumFrom 0).map
          (fun q => (((q.1 : Nat) : Int), q.2.2)) ∧
       ((((buildModifiedAnthropicStream events blocked msgs).filterMap
          anthStartInfo).filter
          (fun q => q.1 ≠
            (((keptFull (blocked.map (fun t => t.index)) events).length
              : Nat) : Int))).map (fun q => q.1)) =
        (List.range
          (keptFull (blocked.map (fun t => t.index)) events).length).map
          (fun n => ((n : Nat) : Int)) ∧
       ∀ q ∈ (buildModifiedAnthropicStream events blocked msgs).filterMap
          anthStartInfo,
         q.1 = (((keptFull (blocked.map (fun t => t.index)) events).length
           : Nat) : Int) →
         q.2.1 = "text")) ∧
    (∀ (events : List OAIEvent) (blocked : List ToolCallM)
        (msgs : List String),
      ((buildModifiedOpenAIStream events blocked msgs).flatMap fragsOf) =
        (events.flatMap fragsOf).filter
          (fun f => !(decide (f.index ∈ blocked.map (fun t => t.index))))) := by
  refine ⟨modifyAnth_toolUses, ?_, ?_, buildModifiedOpenAIStream_frags⟩
  · intro body blocked dec h1 h2 h3
    rw [modifyAnth_toolUses]
    have hsplit := length_filter_add_length_filter_not
      (fun b : ABlock =>
        decide (b.id ∈ blocked.map (fun t => t.id)))
      (toolUses body.content)
    have hcomp := length_filter_map_comp (fun b : ABlock => b.id)
      (fun x => decide (x ∈ blocked.map (fun t => t.id)))
      (toolUses body.content)
    have hperm : (((toolUses body.content).map (fun b => b.id)).filter
        (fun x => decide (x ∈ blocked.map (fun t => t.id)))).Perm
          (blocked.map (fun t => t.id)) := by
      rw [List.perm_ext_iff_of_nodup (h1.filter _) h2]
      intro a
      simp only [List.mem_filter, decide_eq_true_eq]
      constructor
      · intro h
        exact h.2
      · intro h
        refine ⟨?_, h⟩
        rw [List.mem_map] at h
        obtain ⟨t, ht, rfl⟩ := h
        exact h3 t ht
    have hlen := hperm.length_eq
    have hBlen : (blocked.map (fun t => t.id)).length = blocked.length :=
      List.length_map _ _
    omega
  · intro events blocked msgs hnd
    have hfresh : ∀ p ∈ ([] : List (Int × Nat)),
        ¬ p.1 ∈ (keptFull (blocked.map (fun t => t.index)) events).map
          (fun p => p.1) := by
      intro p hp
      simp at hp
    obtain ⟨hm0, hk0, _⟩ := buildIndexMap_spec
      (blocked.map (fun t => t.index)) events [] 0 hnd hfresh
    have hunfold : buildModifiedAnthropicStream events blocked msgs =
        anthStreamGo (blocked.map (fun t => t.index))
          (buildIndexMap (blocked.map (fun t => t.index)) events [] 0).1
          (buildIndexMap (blocked.map (fun t => t.index)) events [] 0).2
          (!blocked.isEmpty &&
            allToolsBlocked events (blocked.map (fun t => t.index)))
          msgs events (-1) := rfl
    rw [hunfold, anthStreamGo_startInfos]
    have hkval : (buildIndexMap (blocked.map (fun t => t.index))
        events [] 0).2 =
        (keptFull (blocked.map (fun t => t.index)) events).length := by
      rw [hk0]
      omega
    rw [hkval]
    have hm0' : ∀ j p,
        (keptFull (blocked.map (fun t => t.index)) events)[j]? = some p →
        alookup (buildIndexMap (blocked.map (fun t => t.index))
          events [] 0).1 p.1 = some (0 + j) := by
      intro j p hp
      have := hm0 j p hp
      simpa using this
    have hfilter := startContrib_filter (blocked.map (fun t => t.index))
      (buildIndexMap (blocked.map (fun t => t.index)) events [] 0).1
      (keptFull (blocked.map (fun t => t.index)) events).length
      msgs events 0 hm0' (by omega)
    refine ⟨hfilter.1, ?_, hfilter.2⟩
    rw [hfilter.1]
    rw [List.map_map]
    have hfst : ((keptFull (blocked.map (fun t => t.index))
          events).enumFrom 0).map
        (fun q => ((q.1 : Nat) : Int)) =
        (((keptFull (blocked.map (fun t => t.index)) events).enumFrom 0).map
          Prod.fst).map (fun n => ((n : Nat) : Int)) := by
      rw [List.map_map]
      rfl
    calc ((keptFull (blocked.map (fun t => t.index)) events).enumFrom 0).map
          ((fun q : Int × String × String => q.1) ∘
            (fun q : Nat × (Int × String × String) =>
              (((q.1 : Nat) : Int), q.2.2)))
        = ((keptFull (blocked.map (fun t => t.index)) events).enumFrom 0).map
            (fun q => ((q.1 : Nat) : Int)) := by rfl
      _ = (((keptFull (blocked.map (fun t => t.index))
              events).enumFrom 0).map Prod.fst).map
            (fun n => ((n : Nat) : Int)) := hfst
      _ = (List.range
            (keptFull (blocked.map (fun t => t.index)) events).length).map
            (fun n => ((n : Nat) : Int)) := by
          rw [List.enumFrom_map_fst, List.range_eq_range']

/-- C3 witness: on the demo Anthropic body and stream with toolu_1
blocked, the tool_use count drops by the blocked-set size and the
rewritten stream's non-notice start indices are exactly the contiguous
range 0..k-1. -/
theorem C3_witness :
    (toolUses (modifyAnthropicResponse demoAnthBody demoBlockedT
        demoDecisions).content).length =
      (toolUses demoAnthBody.content).length - demoBlockedT.length ∧
    ((((buildModifiedAnthropicStream demoAnthEvents demoBlockedT
          []).filterMap anthStartInfo).filter
        (fun q => q.1 ≠
          (((keptFull (demoBlockedT.map (fun t => t.index))
              demoAnthEvents).length : Nat) : Int))).map (fun q => q.1)) =
      (List.range
        (keptFull (demoBlockedT.map (fun t => t.index))
          demoAnthEvents).length).map (fun n => ((n : Nat) : Int)) := by
  exact ⟨C3_amended.2.1 demoAnthBody demoBlockedT demoDecisions (by decide)
      (by decide) (by decide),
    (C3_amended.2.2.1 demoAnthEvents demoBlockedT [] (by decide)).2.1⟩

/-- A flushed event that does not break the scanner loop is never a
terminal event, so a terminal event can only be the last element of the
scanner output, whatever the pending event name and data. -/
theorem parseSSELines_term_last (lines : List String) :
    ∀ curEvent curData l1 e l2,
      parseSSELines lines curEvent curData = l1 ++ e :: l2 →
      isTerminalEvent e = true → l2 = [] := by
  induction lines with
  | nil =>
    intro curEvent curData l1 e l2 h _
    simp only [parseSSELines] at h
    exact absurd h (by simp)
  | cons line rest IH =>
    intro curEvent curData l1 e l2 h he
    simp only [parseSSELines] at h
    by_cases hline : line = ""
    · rw [if_pos hline] at h
      by_cases hdata : curData ≠ ""
      · rw [if_pos hdata] at h
        by_cases hbrk : curEvent = "message_stop" ∨ curData = "[DONE]"
        · rw [if_pos hbrk] at h
          by_cases hping : curEvent ≠ "ping"
          · rw [if_pos hping] at h
            have hlen := congrArg List.length h
            simp at hlen
            exact List.length_eq_zero.mp (by omega)
          · rw [if_neg hping] at h
            exact absurd h (by simp)
        · rw [if_neg hbrk] at h
          push_neg at hbrk
          by_cases hping : curEvent ≠ "ping"
          · rw [if_pos hping, List.singleton_append] at h
            cases l1 with
            | nil =>
              rw [List.nil_append] at h
              injection h with h1 h2
              rw [← h1] at he
              simp [isTerminalEvent] at he
              cases he with
              | inl h' => exact absurd h' hbrk.1
              | inr h' => exact absurd h' hbrk.2
            | cons a l1' =>
              rw [List.cons_append] at h
              injection h with h1 h2
              exact IH "" "" l1' e l2 h2 he
          · rw [if_neg hping, List.nil_append] at h
            exact IH "" "" l1 e l2 h he
      · rw [if_neg hdata] at h
        exact IH "" "" l1 e l2 h he
    · rw [if_neg hline] at h
      by_cases hev : hasPrefixStr line "event:" = true
      · rw [if_pos hev] at h
        exact IH _ curData l1 e l2 h he
      · rw [if_neg hev] at h
        by_cases hda : hasPrefixStr line "data:" = true
        · rw [if_pos hda] at h
          exact IH curEvent _ l1 e l2 h he
        · rw [if_neg hda] at h
          exact IH curEvent curData l1 e l2 h he

/-- C4 counterexample: a scanned SSE body whose response.completed event
is followed by a further event; the buffer does not stop at
response.completed — the later event is still buffered — because the
scanner breaks only on message_stop or [DONE]. -/
theorem C4_counterexample :
    parseSSEStream demoSSELines =
      [⟨"response.completed", "ok"⟩, ⟨"later", "more"⟩] ∧
    isTerminalEvent ⟨"response.completed", "ok"⟩ = false := by
  exact ⟨by decide, by decide⟩

/-- C4 amended: the stream buffer stops consuming exactly at the two
terminal markers the scanner actually checks — an event named
message_stop or one whose data is [DONE] — and no event after such a
marker appears in the buffered event sequence; response.completed is not
a terminal marker on any path. -/
theorem C4_amended (lines : List String) (l1 : List SSEEvent)
    (e : SSEEvent) (l2 : List SSEEvent)
    (h : parseSSEStream lines = l1 ++ e :: l2)
    (he : isTerminalEvent e = true) : l2 = [] :=
  parseSSELines_term_last lines "" "" l1 e l2 h he

/-- C4 witness: the demo body ending in message_stop buffers exactly that
event, and nothing follows it. -/
theorem C4_witness :
    parseSSEStream demoSSEStopLines =
      [] ++ (⟨"message_stop", "x"⟩ : SSEEvent) :: [] ∧
    ([] : List SSEEvent) = [] :=
  ⟨by decide, C4_amended demoSSEStopLines [] ⟨"message_stop", "x"⟩ []
    (by decide) (by decide)⟩

end CtrlAI
